import Mathlib

/-!
Shallow embedding of the deterministic radio-scheduling core of the
GTA-V-Radio repository (src/js/radio.js, src/source/utility.js), together
with theorems settling the specification claims about it.

JavaScript number semantics: every numeric value occurring in the scheduler
is an integer except the accumulated playback time and the derived
timestamps (rationals), and the `toFloat` output.  Bitwise operators work on
32-bit two's-complement views (`ToInt32` / `ToUint32`); multiplication is
IEEE-754 double multiplication, which for integer operands is the exactly
representable integer nearest the exact product (ties to even).  `undefined`
and `NaN` propagation (reachable when a file-group list is empty) is
modelled with `Option`: an `Option AudioEntry` that is `none` stands for the
`undefined` entry produced by indexing an empty list, and an `Option ℚ`
accumulated time that is `none` stands for `NaN`.
-/

namespace GTAVRadio

/-- `ToUint32` of an integral JS number: the value modulo 2^32, in `[0, 2^32)`. -/
def toUint32 (x : Int) : Nat := (x % 4294967296).toNat

/-- `ToInt32` of an integral JS number: the 32-bit two's-complement view. -/
def toInt32 (x : Int) : Int :=
  let u := toUint32 x
  if u < 2147483648 then (u : Int) else (u : Int) - 4294967296

/-- JS bitwise xor `a ^ b` on integral numbers. -/
def jsXor (a b : Int) : Int := toInt32 ((Nat.xor (toUint32 a) (toUint32 b) : Nat) : Int)

/-- JS unsigned right shift `a >>> k` (for `0 ≤ k < 32`) on integral numbers. -/
def jsShrU (a : Int) (k : Nat) : Nat := (toUint32 a) >>> k

/-- Bit length of a natural number (structural, fuel = the number itself). -/
def bitLenAux : Nat → Nat → Nat
  | 0, _ => 0
  | fuel + 1, n => if n = 0 then 0 else bitLenAux fuel (n / 2) + 1

/-- Bit length: `bitLen 0 = 0`, `bitLen n = ⌊log₂ n⌋ + 1` for `n ≥ 1`. -/
def bitLen (n : Nat) : Nat := bitLenAux n n

/-- IEEE-754 double rounding (round to nearest, ties to even) of an exact
integer: the 53-bit-significand value nearest `p`.  This is what a JS `*` of
two integral doubles produces when the exact product exceeds 2^53. -/
def f64round (p : Int) : Int :=
  let n := p.natAbs
  let k := bitLen n - 53
  if k = 0 then p
  else
    let q := n / 2 ^ k
    let r := n % 2 ^ k
    let h := 2 ^ (k - 1)
    let m := if r > h then q + 1 else if r < h then q else if q % 2 = 0 then q else q + 1
    (if p < 0 then -1 else 1) * ((m * 2 ^ k : Nat) : Int)

/-- JS multiplication of two integral doubles: exact product, then double rounding. -/
def jsMul (a b : Int) : Int := f64round (a * b)

/-- `SeededPRNG` from src/source/utility.js: a pure hash of `(seed, index)`. -/
structure SeededPRNG where
  seed : Int
  index : Int
deriving DecidableEq, Repr

/-- `SeededPRNG.generate`: the three-round xorshift-multiply hash, under JS
number semantics (`^`/`>>>` coerce to 32 bits, `*` is double multiplication),
finally truncated by `>>> 0` to an unsigned 32-bit value. -/
def SeededPRNG.generate (g : SeededPRNG) : Nat :=
  let v0 := jsXor g.seed g.index
  let v1 := jsMul (jsXor v0 ((jsShrU v0 21 : Nat) : Int)) 0x45d9f3b
  let v2 := jsMul (jsXor v1 ((jsShrU v1 15 : Nat) : Int)) 0x45d9f3b
  let v3 := jsXor v2 ((jsShrU v2 13 : Nat) : Int)
  toUint32 v3

/-- `SeededPRNG.next`: returns `generate()` and increments `index` by 1. -/
def SeededPRNG.nextVal (g : SeededPRNG) : Nat × SeededPRNG :=
  (g.generate, ⟨g.seed, g.index + 1⟩)

/-- `SeededPRNG.toFloat`: divide by 0xFFFFFFFF.  The JS float division is
modelled exactly in ℚ; the rounding step of the actual double division is
monotone and fixes both endpoints, so the [0,1] range claim is unaffected. -/
def SeededPRNG.toFloat (v : Nat) : ℚ := (v : ℚ) / 4294967295

/-- `SeededPRNG.clone`: a new generator with the same `(seed, index)`. -/
def SeededPRNG.clone (g : SeededPRNG) : SeededPRNG := ⟨g.seed, g.index⟩

/-- Modelled from the claim/spec wording for the generator contract: XOR the
seed with the index, then three xorshift-multiply rounds (`>>> 21` then
`* 0x45d9f3b`, `>>> 15` then `* 0x45d9f3b`, `>>> 13`), truncated to an
unsigned 32-bit result.  The operators are the JS operators the claim quotes. -/
def xorshiftRound (shift : Nat) (v : Int) : Int := jsXor v ((jsShrU v shift : Nat) : Int)

/-- Modelled from the claim/spec wording: the pure generator function. -/
def generatePure (seed idx : Int) : Nat :=
  let r1 := jsMul (xorshiftRound 21 (jsXor seed idx)) 0x45d9f3b
  let r2 := jsMul (xorshiftRound 15 r1) 0x45d9f3b
  toUint32 (xorshiftRound 13 r2)

/-- `IndexDrawPool` from src/source/utility.js: anti-repeat index selector.
`dontRepeatFor` is kept as `Int` because the manager's clamp
`Math.min(dontRepeatFor, sourceSize - 1)` can produce `-1` for an empty list. -/
structure IndexDrawPool where
  draw : List Nat
  discard : List Nat
  dontRepeatFor : Int
deriving DecidableEq, Repr

/-- The `IndexDrawPool` constructor: `draw = [0 .. sourceSize)`, empty discard. -/
def IndexDrawPool.init (sourceSize : Nat) (dontRepeatFor : Int) : IndexDrawPool :=
  ⟨List.range sourceSize, [], dontRepeatFor⟩

/-- `IndexDrawPool.next(randomInteger)`: null when `draw` is empty; otherwise
select `draw[randomInteger % draw.length]`, move it to the back of `discard`,
and if `discard` exceeds `dontRepeatFor`, move its oldest entry back into `draw`. -/
def IndexDrawPool.nextDraw (p : IndexDrawPool) (rand : Nat) : Option Nat × IndexDrawPool :=
  if h : p.draw.length = 0 then (none, p)
  else
    let i : Fin p.draw.length := ⟨rand % p.draw.length, Nat.mod_lt _ (Nat.pos_of_ne_zero h)⟩
    let selected := p.draw.get i
    let draw1 := p.draw.eraseIdx i
    let discard1 := p.discard ++ [selected]
    if (discard1.length : Int) > p.dontRepeatFor then
      match discard1 with
      | [] => (some selected, ⟨draw1, [], p.dontRepeatFor⟩)
      | d :: rest => (some selected, ⟨draw1 ++ [d], rest, p.dontRepeatFor⟩)
    else (some selected, ⟨draw1, discard1, p.dontRepeatFor⟩)

/-- `IndexDrawPool.clone`: deep copy (value copy in the embedding). -/
def IndexDrawPool.clonePool (p : IndexDrawPool) : IndexDrawPool :=
  ⟨p.draw, p.discard, p.dontRepeatFor⟩

/-- Run a sequence of `next` calls, collecting the returned options. -/
def runPool (p : IndexDrawPool) : List Nat → List (Option Nat) × IndexDrawPool
  | [] => ([], p)
  | r :: rs =>
    let step := p.nextDraw r
    let rest := runPool step.2 rs
    (step.1 :: rest.1, rest.2)

/-- The pool a fresh `IndexDrawPoolManager.nextUniqueIndex` call creates:
`dontRepeatFor` clamped to `min(dontRepeatFor, sourceSize - 1)`. -/
def mgrNewPool (sourceSize : Nat) (dontRepeatFor : Int) : IndexDrawPool :=
  IndexDrawPool.init sourceSize (min dontRepeatFor ((sourceSize : Int) - 1))

/-- The manager's `Map<string, IndexDrawPool>`, as an association list. -/
def PoolMgr : Type := List (String × IndexDrawPool)

instance : DecidableEq PoolMgr := by unfold PoolMgr; infer_instance

instance : Repr PoolMgr := by unfold PoolMgr; infer_instance

def mgrGet : PoolMgr → String → Option IndexDrawPool
  | [], _ => none
  | (k, p) :: rest, id => if k = id then some p else mgrGet rest id

def mgrSet : PoolMgr → String → IndexDrawPool → PoolMgr
  | [], id, p => [(id, p)]
  | (k, q) :: rest, id, p => if k = id then (id, p) :: rest else (k, q) :: mgrSet rest id p

/-- `IndexDrawPoolManager.nextUniqueIndex`: create the pool on first use
(with the clamp), then draw from it and store the updated pool. -/
def mgrNextUnique (mgr : PoolMgr) (id : String) (sourceSize : Nat) (rand : Nat)
    (dontRepeatFor : Int) : Option Nat × PoolMgr :=
  let mgr1 := match mgrGet mgr id with
    | some _ => mgr
    | none => mgrSet mgr id (mgrNewPool sourceSize dontRepeatFor)
  match mgrGet mgr1 id with
  | some pool =>
    let step := pool.nextDraw rand
    (step.1, mgrSet mgr1 id step.2)
  | none => (none, mgr1)

/-! ### Station data model (src/js/radio.js) -/

/-- Segment categories (the `CAT` enum). -/
def catAdverts : Nat := 0
def catIdents : Nat := 1
def catMusic : Nat := 2
def catNews : Nat := 3
def catDjsolo : Nat := 5

/-- `getCategoryId`: draw-pool identifier for a category (NEWS has no case in
the source switch and yields `undefined`; it is never passed in practice). -/
def getCategoryId (c : Nat) : String :=
  if c = catAdverts then "adverts"
  else if c = catIdents then "id"
  else if c = catMusic then "track"
  else if c = catDjsolo then "mono_solo"
  else "undefined"

/-- A metadata file-group entry (`SegmentInfo` as stored in station.json,
before a category is attached).  `introCount` abstracts
`attachments.intro?.length`: `none` = the attachment list is absent,
`some n` = present with `n` entries.  Only its presence/emptiness affects the
scheduler state (a PRNG draw, restored afterwards, and a possible throw);
the chosen voiceover itself is not an observable of any claim. -/
structure AudioEntry where
  path : String
  duration : ℚ
  audibleDuration : Option ℚ
  introCount : Option Nat
deriving DecidableEq, Repr

/-- A selected segment: `setSegmentCategory` clones the entry and attaches a
category.  `entry = none` models the `undefined` produced by indexing an
empty or out-of-range list (the clone then carries only the category). -/
structure SegmentInfo where
  entry : Option AudioEntry
  category : Nat
deriving DecidableEq, Repr

/-- `setSegmentCategory segmentInfo category` (`Object.assign {category}`). -/
def setSegmentCategory (e : Option AudioEntry) (c : Nat) : SegmentInfo := ⟨e, c⟩

/-- JS `i % n` used as a list index: `NaN` (hence `undefined` lookup) when `n = 0`. -/
def jsModIdx (i n : Nat) : Option Nat := if n = 0 then none else some (i % n)

/-- JS `list[i]` for a possibly-`NaN`/`null` index: `undefined` when out of range. -/
def jsIdx (l : List AudioEntry) : Option Nat → Option AudioEntry
  | none => none
  | some i => l.get? i

/-- `audibleDuration || duration` (JS `||`: a present-but-zero
`audibleDuration` is falsy and falls through to `duration`). -/
def entryDur (e : AudioEntry) : ℚ :=
  match e.audibleDuration with
  | some a => if a = 0 then e.duration else a
  | none => e.duration

/-- The duration a selected segment contributes; `none` = `undefined` (NaN). -/
def segDur (si : SegmentInfo) : Option ℚ := si.entry.map entryDur

/-- JS `+` where either side may be `NaN`/`undefined`. -/
def jsAdd (a b : Option ℚ) : Option ℚ :=
  match a, b with
  | some x, some y => some (x + y)
  | _, _ => none

/-- JS `>` where the left side may be `NaN` (`NaN > x` is false). -/
def jsGt (a : Option ℚ) (b : ℚ) : Bool :=
  match a with
  | some x => decide (b < x)
  | none => false

/-- Station behavior type ("static" = Fixed-Playlist). -/
inductive StationType where
  | static
  | talkshow
  | dynamic
deriving DecidableEq, Repr

/-- Immutable station metadata, as the scheduler consumes it.
`advertsCat` is the list `getCommonList("adverts")` computes (the station's
own `fileGroups.adverts` concatenated with the referenced shared lists; the
computation is pure and merely memoised in `commonListCache`, so it is
modelled by its value).  `idList` / `monoSolo` / `toAdverts` distinguish an
absent file group (`none`) from a present-but-empty one (`some []`), since
the source treats them differently.  `epoch` is the station's
`startTimestamp` (UTC ms of the start of the current month), fixed for the
run as the claims fix it.  `dataPath`/`path` feed path resolution. -/
structure StationMetaM where
  stype : StationType
  dataPath : String
  path : String
  epoch : Int
  track : List AudioEntry
  idList : Option (List AudioEntry)
  monoSolo : Option (List AudioEntry)
  advertsCat : List AudioEntry
  toAdverts : Option (List AudioEntry)
deriving DecidableEq, Repr

/-- The mutable scheduling state of a `RadioStation`. `accumulatedTime` is
`Option ℚ` (`none` = NaN).  `historyLimit` is `_historyLimit` (copied by
`clone`, untouched by `resetState`). -/
structure StationState where
  accumulatedTime : Option ℚ
  segmentIndex : Nat
  trackIndex : Nat
  segmentHistory : List SegmentInfo
  prng : SeededPRNG
  pools : PoolMgr
  historyLimit : Nat
deriving DecidableEq, Repr

/-- The state `resetState()` establishes (counters cleared, generator
reseeded from the epoch, fresh draw-pool registry); `historyLimit` is the
only field it leaves as configured. -/
def initState (m : StationMetaM) (historyLimit : Nat) : StationState :=
  { accumulatedTime := some 0
    segmentIndex := 0
    trackIndex := 0
    segmentHistory := []
    prng := ⟨m.epoch, 0⟩
    pools := []
    historyLimit := historyLimit }

/-- `resetState()` on an existing instance. -/
def resetStateF (m : StationMetaM) (s : StationState) : StationState :=
  initState m s.historyLimit

/-- `clone(true)`: deep copy of all mutable containers (a value copy here). -/
def cloneKeep (s : StationState) : StationState :=
  { accumulatedTime := s.accumulatedTime
    segmentIndex := s.segmentIndex
    trackIndex := s.trackIndex
    segmentHistory := s.segmentHistory
    prng := s.prng.clone
    pools := s.pools
    historyLimit := s.historyLimit }

/-- The first `/`-separated component of a path (`path.split("/")[0]`). -/
def firstPathComponent : List Char → List Char
  | [] => []
  | c :: cs => if c = '/' then [] else c :: firstPathComponent cs

/-- `resolveObjectPath`: prefix with the data path, station-relative unless
the path's first component (`path.split("/")[0]`) is the `common` folder. -/
def resolvePath (m : StationMetaM) (rel : String) : String :=
  if firstPathComponent rel.data = "common".data then m.dataPath ++ rel
  else m.dataPath ++ m.path ++ "/" ++ rel

/-- The resolved copy of a segment whose entry is present: the clone with
the prefixed path. -/
def resolvedSeg (m : StationMetaM) (si : SegmentInfo) : SegmentInfo :=
  { si with entry := si.entry.map fun e => { e with path := resolvePath m e.path } }

/-- A `PlayableSegment` restricted to the claimed observables: resolved
segment info and absolute start timestamp (ms; `none` = NaN).  Voiceover
contents are not modelled (no claim mentions them); the voiceover
*selection*'s effects on live state are (see `resolveSegmentDyn`). -/
structure Playable where
  info : SegmentInfo
  startTimestamp : Option ℚ
deriving DecidableEq, Repr

/-- Outcome of a scheduler call: a value, a thrown JS exception, or an
exhausted simulation bound (the source recursion/loop did not finish within
the given fuel — used to express non-termination). -/
inductive JsRes (α : Type) where
  | ok : α → JsRes α
  | thrown : JsRes α
  | fuelOut : JsRes α
deriving DecidableEq, Repr

def JsRes.bindR : JsRes α → (α → JsRes β) → JsRes β
  | .ok a, f => f a
  | .thrown, _ => .thrown
  | .fuelOut, _ => .fuelOut

/-- `resolveObjectPath(segmentInfo)`: clone the segment and resolve its
path.  A segment with no entry has no `path` property, so the source's
`object.path.split("/")` is a method call on `undefined` and throws a
`TypeError`. -/
def resolveSeg (m : StationMetaM) (si : SegmentInfo) : JsRes SegmentInfo :=
  match si.entry with
  | none => .thrown
  | some _ => .ok (resolvedSeg m si)

/-- Register a selection into history: `unshift`, then trim to `historyLimit`. -/
def registerHistory (si : SegmentInfo) (s : StationState) : StationState :=
  { s with segmentHistory := (si :: s.segmentHistory).take s.historyLimit }

/-- The state update at the end of `_nextSegmentInfo`: `trackIndex` +1 when
the category is MUSIC, `segmentIndex` +1, accumulated time plus
`audibleDuration || duration`. -/
def postUpdate (si : SegmentInfo) (s : StationState) : StationState :=
  let s1 := if si.category = catMusic then { s with trackIndex := s.trackIndex + 1 } else s
  { s1 with
    segmentIndex := s1.segmentIndex + 1
    accumulatedTime := jsAdd s1.accumulatedTime (segDur si) }

/-- Advance the station's generator (`this.PRNG.next()`), returning the value. -/
def prngDraw (s : StationState) : Nat × StationState :=
  let step := s.prng.nextVal
  (step.1, { s with prng := step.2 })

/-- Restore the generator index (the save/restore around `onAfterRegister`). -/
def setPrngIndex (s : StationState) (idx : Int) : StationState :=
  { s with prng := ⟨s.prng.seed, idx⟩ }

/-- The replay loops of `peekSegment`: run `count` iterations of
`segment = simulatedStation._nextSegmentInfo()`, threading the `segment`
variable (initially null). -/
def simLoop (stepF : StationState → JsRes (SegmentInfo × StationState)) :
    Nat → Option SegmentInfo → StationState → JsRes (Option SegmentInfo × StationState)
  | 0, acc, s => .ok (acc, s)
  | count + 1, _, s =>
    match stepF s with
    | .ok (si, s1) => simLoop stepF count (some si) s1
    | .thrown => .thrown
    | .fuelOut => .fuelOut

/-- `peekSegment(segmentOffset)`, parameterized by the lower-fuel plain step
used for its simulations.  Backward/zero offsets use history when retained,
else replay `targetIndex + 1` plain selections from a state-less clone after
`resetState()`; positive offsets replay forward on a state-keeping clone. -/
def peekAux (m : StationMetaM) (stepF : StationState → JsRes (SegmentInfo × StationState))
    (offset : Int) (s : StationState) : JsRes (Option SegmentInfo) :=
  if offset ≤ 0 then
    let target : Int := (s.segmentIndex : Int) + offset
    if target ≤ 0 then .ok none
    else
      match s.segmentHistory.get? (-offset).toNat with
      | some si => .ok (some si)
      | none =>
        (simLoop stepF (target.toNat + 1) none (initState m s.historyLimit)).bindR
          fun r => .ok r.1
  else
    (simLoop stepF offset.toNat none (cloneKeep s)).bindR fun r => .ok r.1

/-- The guarded transition draw of the talkshow policy (`!transitions ||
transitions.length === 0` returns null, else an anti-repeat draw, tagged). -/
def talkDrawFrom (m : StationMetaM) (s : StationState) (cat : Nat)
    (transitionsOpt : Option (List AudioEntry)) : Option (SegmentInfo × StationState) :=
  match transitionsOpt with
  | none => none
  | some transitions =>
    if transitions.length = 0 then none
    else
      let d := prngDraw s
      let q := mgrNextUnique d.2.pools (getCategoryId cat) transitions.length d.1 8
      some (setSegmentCategory (jsIdx transitions q.1) cat, { d.2 with pools := q.2 })

/-- Talkshow `getRandomTransition(currentCategory)`: ident transitions after
an advert or news, common adverts otherwise. -/
def talkTransition (m : StationMetaM) (s : StationState) (currentCategory : Option Nat) :
    Option (SegmentInfo × StationState) :=
  if currentCategory = some catAdverts ∨ currentCategory = some catNews then
    talkDrawFrom m s catIdents m.idList
  else talkDrawFrom m s catAdverts (some m.advertsCat)

/-- Dynamic `getRandomTrack(randNum)`: anti-repeat draw from the track pool. -/
def dynRandomTrack (m : StationMetaM) (rand : Nat) (s : StationState) :
    SegmentInfo × StationState :=
  let q := mgrNextUnique s.pools "track" m.track.length rand 8
  (setSegmentCategory (jsIdx m.track q.1) catMusic, { s with pools := q.2 })

/-- Dynamic `getRandomId(randNum)`: null when the `id` file group is absent
or empty, else an anti-repeat draw from it, tagged IDENT. -/
def dynRandomId (m : StationMetaM) (rand : Nat) (s : StationState) :
    Option (SegmentInfo × StationState) :=
  match m.idList with
  | none => none
  | some idents =>
    if idents.length = 0 then none
    else
      let q := mgrNextUnique s.pools "id" idents.length rand 8
      some (setSegmentCategory (jsIdx idents q.1) catIdents, { s with pools := q.2 })

/-- Dynamic `getRandomTransition(randNum)`: DJ solo on an even draw, common
adverts on an odd one.  There is no absence guard: an absent `mono_solo`
file group makes `transitions.length` a property access on `undefined`,
which throws. -/
def dynRandomTransition (m : StationMetaM) (rand : Nat) (s : StationState) :
    JsRes (SegmentInfo × StationState) :=
  let sel := if rand % 2 = 0 then catDjsolo else catAdverts
  match (if sel = catAdverts then some m.advertsCat else m.monoSolo) with
  | none => .thrown
  | some transitions =>
    let q := mgrNextUnique s.pools (getCategoryId sel) transitions.length rand 8
    .ok (setSegmentCategory (jsIdx transitions q.1) sel, { s with pools := q.2 })

/-- The per-type selection policy `impl_nextSegment`, parameterized by the
lower-fuel plain step its `peekSegment(0)` may use. -/
def implNextA (m : StationMetaM) (stepF : StationState → JsRes (SegmentInfo × StationState))
    (s : StationState) : JsRes (SegmentInfo × StationState) :=
  match m.stype with
  | .static =>
    .ok (setSegmentCategory (jsIdx m.track (jsModIdx s.segmentIndex m.track.length)) catMusic, s)
  | .talkshow =>
    (peekAux m stepF 0 s).bindR fun current =>
      let currentCategory := current.map (·.category)
      let transition :=
        if currentCategory = some catMusic ∨ currentCategory = some catNews ∨
            currentCategory = some catAdverts then
          talkTransition m s currentCategory
        else none
      match transition with
      | some r => .ok r
      | none =>
        .ok (setSegmentCategory (jsIdx m.track (jsModIdx s.trackIndex m.track.length)) catMusic, s)
  | .dynamic =>
    let d := prngDraw s
    (peekAux m stepF 0 d.2).bindR fun current =>
      let currentCategory := current.map (·.category)
      if currentCategory = some catAdverts then
        match dynRandomId m d.1 d.2 with
        | some r => .ok r
        | none => .ok (dynRandomTrack m d.1 d.2)
      else if currentCategory = some catMusic ∧ SeededPRNG.toFloat d.1 * 100 < 50 then
        dynRandomTransition m d.1 d.2
      else .ok (dynRandomTrack m d.1 d.2)

/-- `_nextSegmentInfo()` without callback (the plain overload used by every
simulation): policy selection, history registration, state update.  Fuel
bounds the nesting depth of `peekSegment`-driven replays. -/
def stepPlain (m : StationMetaM) : Nat → StationState → JsRes (SegmentInfo × StationState)
  | 0, _ => .fuelOut
  | fuel + 1, s =>
    (implNextA m (fun st => stepPlain m fuel st) s).bindR fun r =>
      .ok (r.1, postUpdate r.1 (registerHistory r.1 r.2))

/-- The intro-voiceover stage of the dynamic `impl_resolveSegment`: a PRNG
draw when the segment's intro attachment list is present (throwing when it is
present but empty, since indexing it yields `undefined`). -/
def resolveIntroStep (si : SegmentInfo) (s : StationState) : JsRes StationState :=
  match si.entry with
  | none => .ok s
  | some e =>
    match e.introCount with
    | none => .ok s
    | some 0 => .thrown
    | some (_ + 1) => .ok (prngDraw s).2

/-- The outro-voiceover stage of the dynamic `impl_resolveSegment`: when the
upcoming segment is an advert and `to_adverts` exists, a PRNG draw and a
`to_ad` pool draw (throwing when the list is empty, since the `undefined`
entry's path resolution throws; also throwing on a null upcoming segment). -/
def resolveOutroStep (m : StationMetaM) (upcoming : Option SegmentInfo)
    (s1 : StationState) : JsRes StationState :=
  match upcoming with
  | none => .thrown
  | some nseg =>
    if nseg.category = catAdverts then
      match m.toAdverts with
      | none => .ok s1
      | some toAds =>
        let d := prngDraw s1
        let q := mgrNextUnique d.2.pools "to_ad" toAds.length d.1 8
        match jsIdx toAds q.1 with
        | none => .thrown
        | some _ => .ok { d.2 with pools := q.2 }
    else .ok s1

/-- Dynamic `impl_resolveSegment` state effects: peek one segment ahead (on a
state-keeping clone), then the intro and outro voiceover stages.  The PRNG
index consumed here is restored by the caller (`_nextSegmentInfo` saves and
restores it around the callback); the `to_ad` pool advance persists on the
live station.  The selected voiceover values themselves are not observables
of any claim and are not tracked. -/
def resolveSegmentDyn (m : StationMetaM)
    (stepF : StationState → JsRes (SegmentInfo × StationState)) (si : SegmentInfo)
    (s : StationState) : JsRes StationState :=
  (peekAux m stepF 1 s).bindR fun upcoming =>
    (resolveIntroStep si s).bindR fun s1 => resolveOutroStep m upcoming s1

/-- `new PlayableSegment(...)`: resolved path and
`startTimestamp = epoch + accumulatedTime * 1000`. -/
def mkPlayable (m : StationMetaM) (si : SegmentInfo) (s : StationState) : Playable :=
  { info := resolvedSeg m si
    startTimestamp := s.accumulatedTime.map fun a => (m.epoch : ℚ) + a * 1000 }

/-- `_newPlayableSegment`: `resolveObjectPath` first (so an entry-less
segment throws before anything else runs), then the playable segment, then
`impl_resolveSegment` (a no-op except for dynamic stations). -/
def newPlayable (m : StationMetaM)
    (stepF : StationState → JsRes (SegmentInfo × StationState)) (si : SegmentInfo)
    (s : StationState) : JsRes (Playable × StationState) :=
  (resolveSeg m si).bindR fun _ =>
    match m.stype with
    | .dynamic => (resolveSegmentDyn m stepF si s).bindR fun s1 => .ok (mkPlayable m si s, s1)
    | _ => .ok (mkPlayable m si s, s)

/-- `nextSegment()`: `_nextSegmentInfo` with the playable-segment callback
(PRNG index saved before the callback and restored after it). -/
def nextSegmentF (m : StationMetaM) : Nat → StationState → JsRes (Playable × StationState)
  | 0, _ => .fuelOut
  | fuel + 1, s =>
    (implNextA m (fun st => stepPlain m fuel st) s).bindR fun r =>
      let s2 := registerHistory r.1 r.2
      let saved := s2.prng.index
      (newPlayable m (fun st => stepPlain m fuel st) r.1 s2).bindR fun pr =>
        .ok (pr.1, postUpdate r.1 (setPrngIndex pr.2 saved))

/-- One iteration of the `getSyncedSegment` loop: select, and return a
playable segment only when its end time passes `now` (ms since the epoch). -/
def syncStep (m : StationMetaM) (fuel : Nat) (now : ℚ) (s : StationState) :
    JsRes (Option Playable × StationState) :=
  (implNextA m (fun st => stepPlain m fuel st) s).bindR fun r =>
    let s2 := registerHistory r.1 r.2
    let saved := s2.prng.index
    let time := (jsAdd s2.accumulatedTime (segDur r.1)).map (· * 1000)
    let cb : JsRes (Option Playable × StationState) :=
      if jsGt time now then
        (newPlayable m (fun st => stepPlain m fuel st) r.1 s2).bindR fun pr =>
          .ok (some pr.1, pr.2)
      else .ok (none, s2)
    cb.bindR fun co => .ok (co.1, postUpdate r.1 (setPrngIndex co.2 saved))

/-- The `while (true)` loop of `getSyncedSegment`, bounded by `iterFuel`. -/
def syncLoop (m : StationMetaM) (fuel : Nat) : Nat → ℚ → StationState → JsRes (Playable × StationState)
  | 0, _, _ => .fuelOut
  | iter + 1, now, s =>
    (syncStep m fuel now s).bindR fun co =>
      match co.1 with
      | some p => .ok (p, co.2)
      | none => syncLoop m fuel iter now co.2

/-- `getSyncedSegment()` at wall-clock instant `nowAbs` (UTC ms):
`resetState()`, then loop until the candidate segment's end time exceeds
`now = nowAbs - epoch`. -/
def getSynced (m : StationMetaM) (fuel iterFuel : Nat) (nowAbs : ℚ) (s : StationState) :
    JsRes (Playable × StationState) :=
  syncLoop m fuel iterFuel (nowAbs - (m.epoch : ℚ)) (resetStateF m s)

/-- Public `peekSegment`, explicitly threading the live station state it
could in principle mutate (the source body assigns only to the simulated
clone, so the threaded state passes through unchanged). -/
def peekSegmentT (m : StationMetaM) (fuel : Nat) (offset : Int) (s : StationState) :
    JsRes (Option SegmentInfo) × StationState :=
  (peekAux m (fun st => stepPlain m fuel st) offset s, s)

/-! ### Derived runners and observation functions -/

/-- The observables the determinism claim names: category, path, timestamp. -/
def obs (p : Playable) : Nat × Option String × Option ℚ :=
  (p.info.category, p.info.entry.map (·.path), p.startTimestamp)

/-- The trace of `n` consecutive `nextSegment()` calls (stopping at a thrown
exception or exhausted fuel, which is itself part of the trace). -/
def traceN (m : StationMetaM) (fuel : Nat) :
    Nat → StationState → List (JsRes (Nat × Option String × Option ℚ))
  | 0, _ => []
  | n + 1, s =>
    match nextSegmentF m fuel s with
    | .ok r => .ok (obs r.1) :: traceN m fuel n r.2
    | .thrown => [.thrown]
    | .fuelOut => [.fuelOut]

/-- The station state after `n` consecutive `nextSegment()` calls. -/
def runN (m : StationMetaM) (fuel : Nat) : Nat → StationState → JsRes StationState
  | 0, s => .ok s
  | n + 1, s =>
    match nextSegmentF m fuel s with
    | .ok r => runN m fuel n r.2
    | .thrown => .thrown
    | .fuelOut => .fuelOut

/-- Absolute end time (ms) of a playable segment: start + audible duration. -/
def segEndAbs (p : Playable) : Option ℚ :=
  match p.startTimestamp, segDur p.info with
  | some a, some d => some (a + d * 1000)
  | _, _ => none

/-- The most recent `K` entries of a list (the whole list when shorter). -/
def lastK (K : Nat) (l : List Nat) : List Nat := l.drop (l.length - K)

/-- The draw-pool invariant: the configured bound, draw ++ discard a
permutation of `[0 .. S)`, and at most `K` discarded entries. -/
def PoolInv (S K : Nat) (p : IndexDrawPool) : Prop :=
  p.dontRepeatFor = (K : Int) ∧ (p.draw ++ p.discard).Perm (List.range S) ∧
    p.discard.length ≤ K

/-! ### Concrete stations used by witnesses and counterexamples -/

def exTrackA : AudioEntry := ⟨"a", 100, none, none⟩
def exTrackB : AudioEntry := ⟨"b", 200, none, none⟩
def exTrackC : AudioEntry := ⟨"c", 150, none, none⟩
def exAdvert : AudioEntry := ⟨"ad1", 30, none, none⟩

/-- Fixed-Playlist station with three tracks of 100/200/150 seconds. -/
def exStatic3 : StationMetaM :=
  ⟨.static, "data/", "st", 0, [exTrackA, exTrackB, exTrackC], none, none, [], none⟩

/-- Fixed-Playlist station with one 100-second track. -/
def exStatic1 : StationMetaM :=
  ⟨.static, "data/", "st", 0, [exTrackA], none, none, [], none⟩

/-- Fixed-Playlist station whose required track list is empty. -/
def exStaticEmpty : StationMetaM :=
  ⟨.static, "data/", "st", 0, [], none, none, [], none⟩

/-- Fixed-Playlist station whose track has `audibleDuration = 0` (falsy). -/
def exStaticAud0 : StationMetaM :=
  ⟨.static, "data/", "st", 0, [⟨"z", 5, some 0, none⟩], none, none, [], none⟩

/-- Dynamic station whose `mono_solo` file group is absent. -/
def exDynNoSolo : StationMetaM :=
  ⟨.dynamic, "data/", "st", 1, [exTrackA], none, none, [], none⟩

/-- Dynamic station whose `mono_solo` file group is present but empty. -/
def exDynEmptySolo : StationMetaM :=
  ⟨.dynamic, "data/", "st", 1, [exTrackA], none, some [], [], none⟩

/-- Talkshow station whose `id` file group is absent. -/
def exTalkNoId : StationMetaM :=
  ⟨.talkshow, "data/", "st", 0, [exTrackA, exTrackB], none, none, [exAdvert], none⟩

/-- A mid-stream talkshow state whose current (history-head) segment is an
advert, as arises right after an advert transition played. -/
def exTalkAdvertState : StationState :=
  { accumulatedTime := some 130
    segmentIndex := 2
    trackIndex := 1
    segmentHistory := [⟨some exAdvert, catAdverts⟩, ⟨some exTrackA, catMusic⟩]
    prng := ⟨0, 1⟩
    pools := []
    historyLimit := 2 }

/-- A mid-stream dynamic-station state whose current segment is an advert. -/
def exDynAdvertState : StationState :=
  { accumulatedTime := some 130
    segmentIndex := 2
    trackIndex := 1
    segmentHistory := [⟨some exAdvert, catAdverts⟩, ⟨some exTrackA, catMusic⟩]
    prng := ⟨1, 2⟩
    pools := []
    historyLimit := 2 }

/-! ### Claim C4: the deterministic generator contract -/

/-- Claim C4: `generate()` equals the pure three-round xorshift-multiply hash
of `seed XOR index` (under the JS operator semantics the claim quotes),
truncated to an unsigned 32-bit result; `next()` returns `generate(seed,
index)` and increments `index` by exactly 1; `toFloat v = v / 0xFFFFFFFF`
lies in `[0, 1]`; `clone()` yields a generator with identical `(seed, index)`. -/
theorem C4_prng_contract (g : SeededPRNG) (v : Nat) (hv : v ≤ 0xFFFFFFFF) :
    g.generate = generatePure g.seed g.index ∧
    g.nextVal.1 = generatePure g.seed g.index ∧
    g.nextVal.2.seed = g.seed ∧
    g.nextVal.2.index = g.index + 1 ∧
    SeededPRNG.toFloat v = (v : ℚ) / 0xFFFFFFFF ∧
    0 ≤ SeededPRNG.toFloat v ∧ SeededPRNG.toFloat v ≤ 1 ∧
    g.clone = g := by
  refine ⟨rfl, rfl, rfl, rfl, rfl, ?_, ?_, ?_⟩
  · unfold SeededPRNG.toFloat
    positivity
  · unfold SeededPRNG.toFloat
    rw [div_le_one (by norm_num)]
    exact_mod_cast hv
  · cases g
    rfl

/-- Witness for C4 at a concrete generator and value. -/
theorem C4_prng_contract_witness :
    (SeededPRNG.mk 5 7).generate = generatePure 5 7 ∧
    (SeededPRNG.mk 5 7).nextVal.1 = generatePure 5 7 ∧
    (SeededPRNG.mk 5 7).nextVal.2.seed = 5 ∧
    (SeededPRNG.mk 5 7).nextVal.2.index = 7 + 1 ∧
    SeededPRNG.toFloat 123 = (123 : ℚ) / 0xFFFFFFFF ∧
    0 ≤ SeededPRNG.toFloat 123 ∧ SeededPRNG.toFloat 123 ≤ 1 ∧
    (SeededPRNG.mk 5 7).clone = SeededPRNG.mk 5 7 :=
  C4_prng_contract ⟨5, 7⟩ 123 (by norm_num)

/-! ### Draw-pool lemmas (shared by C3 and C10) -/

theorem get_cons_eraseIdx_perm (l : List Nat) :
    ∀ i : Fin l.length, (l.get i :: l.eraseIdx i).Perm l := by
  induction l with
  | nil => intro i; exact absurd i.2 (by simp)
  | cons a t ih =>
    intro i
    match i with
    | ⟨0, h⟩ => simp
    | ⟨j + 1, h⟩ =>
      have hj : j < t.length := by simpa using h
      have step := ih ⟨j, hj⟩
      have hswap : (t.get ⟨j, hj⟩ :: a :: t.eraseIdx j).Perm
          (a :: t.get ⟨j, hj⟩ :: t.eraseIdx j) := List.Perm.swap a _ _
      have htot := hswap.trans (step.cons a)
      simpa using htot

/-- Computation of a fruitful draw when the discard queue is at capacity. -/
theorem nextDraw_eq_pop (p : IndexDrawPool) (r : Nat) (h : ¬p.draw.length = 0)
    (v : Nat) (hvv : v = p.draw.get ⟨r % p.draw.length, Nat.mod_lt _ (Nat.pos_of_ne_zero h)⟩)
    (d : Nat) (rest : List Nat) (hcons : p.discard ++ [v] = d :: rest)
    (hcond : ((p.discard.length + 1 : Nat) : Int) > p.dontRepeatFor) :
    p.nextDraw r =
      (some v, ⟨p.draw.eraseIdx (r % p.draw.length) ++ [d], rest, p.dontRepeatFor⟩) := by
  subst hvv
  have hlen : p.discard.length = rest.length := by
    have := congrArg List.length hcons
    simp only [List.length_append, List.length_cons, List.length_nil] at this
    omega
  simp only [IndexDrawPool.nextDraw, dif_neg h, List.get_eq_getElem] at hcons ⊢
  rw [hcons, if_pos]
  simp only [List.length_cons]
  omega

/-- Computation of a fruitful draw when the discard queue has room. -/
theorem nextDraw_eq_nopop (p : IndexDrawPool) (r : Nat) (h : ¬p.draw.length = 0)
    (v : Nat) (hvv : v = p.draw.get ⟨r % p.draw.length, Nat.mod_lt _ (Nat.pos_of_ne_zero h)⟩)
    (hcond : ¬(((p.discard.length + 1 : Nat) : Int) > p.dontRepeatFor)) :
    p.nextDraw r =
      (some v, ⟨p.draw.eraseIdx (r % p.draw.length), p.discard ++ [v], p.dontRepeatFor⟩) := by
  subst hvv
  simp only [IndexDrawPool.nextDraw, dif_neg h, List.get_eq_getElem]
  rw [if_neg]
  simp only [List.length_append, List.length_cons, List.length_nil]
  omega

/-- Computation of an exhausted draw. -/
theorem nextDraw_eq_empty (p : IndexDrawPool) (r : Nat) (h : p.draw.length = 0) :
    p.nextDraw r = (none, p) := by
  unfold IndexDrawPool.nextDraw
  rw [dif_pos h]

theorem lastK_of_le (K : Nat) (l : List Nat) (h : l.length ≤ K) : lastK K l = l := by
  unfold lastK
  rw [Nat.sub_eq_zero_of_le h, List.drop_zero]

theorem lastK_subset (K : Nat) (l : List Nat) : ∀ x ∈ lastK K l, x ∈ l := by
  intro x hx
  exact List.drop_subset _ _ hx

theorem lastK_lastK (K : Nat) (l t : List Nat) :
    lastK K (lastK K l ++ t) = lastK K (l ++ t) := by
  unfold lastK
  rw [← List.drop_append_of_le_length (Nat.sub_le l.length K), List.drop_drop]
  congr 1
  simp only [List.length_drop, List.length_append]
  omega

/-- One successful draw: the selected index is fresh, in range, and the next
discard queue is exactly the most recent `K` selections. -/
theorem nextDraw_step (S K : Nat) (p : IndexDrawPool) (r : Nat)
    (hne : p.draw ≠ []) (hInv : PoolInv S K p) :
    ∃ v p', p.nextDraw r = (some v, p') ∧ v < S ∧ v ∉ p.discard ∧
      p'.discard = lastK K (p.discard ++ [v]) ∧ PoolInv S K p' := by
  obtain ⟨hK0, hPerm, hLen⟩ := hInv
  have hlen0 : ¬p.draw.length = 0 := by simpa using hne
  set i : Fin p.draw.length :=
    ⟨r % p.draw.length, Nat.mod_lt _ (Nat.pos_of_ne_zero hlen0)⟩ with hi
  set v := p.draw.get i with hv
  have hvmem : v ∈ p.draw := List.get_mem _ _ _
  have hvS : v < S := by
    have : v ∈ List.range S := hPerm.mem_iff.mp (List.mem_append.mpr (Or.inl hvmem))
    simpa using this
  have hnodup : (p.draw ++ p.discard).Nodup :=
    hPerm.nodup_iff.mpr (List.nodup_range S)
  have hdisj : p.draw.Disjoint p.discard := (List.nodup_append.mp hnodup).2.2
  have hvnotd : v ∉ p.discard := fun hmem => hdisj hvmem hmem
  have hperm1 : (v :: p.draw.eraseIdx (i : Nat)).Perm p.draw := get_cons_eraseIdx_perm _ _
  have hperm2 : (p.draw.eraseIdx (i : Nat) ++ (p.discard ++ [v])).Perm (List.range S) := by
    have t1 : (p.draw.eraseIdx (i : Nat) ++ (p.discard ++ [v])).Perm
        (p.draw.eraseIdx (i : Nat) ++ (v :: p.discard)) :=
      List.Perm.append_left _ (List.perm_append_singleton v p.discard)
    have t2 : (p.draw.eraseIdx (i : Nat) ++ (v :: p.discard)).Perm
        (v :: (p.draw.eraseIdx (i : Nat) ++ p.discard)) := List.perm_middle
    have t3 : ((v :: p.draw.eraseIdx (i : Nat)) ++ p.discard).Perm (p.draw ++ p.discard) :=
      hperm1.append_right _
    exact ((t1.trans t2).trans t3).trans hPerm
  by_cases hfull : p.discard.length = K
  · -- the discard queue is full: its oldest entry moves back into draw
    have hcond : ((p.discard.length + 1 : Nat) : Int) > p.dontRepeatFor := by
      rw [hK0]
      omega
    cases hcons : p.discard ++ [v] with
    | nil => exact absurd hcons (by simp)
    | cons d rest =>
      refine ⟨v, ⟨p.draw.eraseIdx (i : Nat) ++ [d], rest, p.dontRepeatFor⟩,
        nextDraw_eq_pop p r hlen0 v hv d rest hcons hcond, hvS, hvnotd, ?_, ?_⟩
      · show rest = lastK K (p.discard ++ [v])
        have hrest : rest = (p.discard ++ [v]).tail := by rw [hcons]; rfl
        rw [hrest]
        unfold lastK
        have hlen1 : (p.discard ++ [v]).length = K + 1 := by
          simp only [List.length_append, List.length_cons, List.length_nil]
          omega
        rw [hlen1, Nat.add_sub_cancel_left, List.drop_one]
      · refine ⟨hK0, ?_, ?_⟩
        · show ((p.draw.eraseIdx (i : Nat) ++ [d]) ++ rest).Perm (List.range S)
          have he1 : (p.draw.eraseIdx (i : Nat) ++ [d]) ++ rest =
              p.draw.eraseIdx (i : Nat) ++ (p.discard ++ [v]) := by
            rw [List.append_assoc, List.singleton_append, hcons]
          rw [he1]
          exact hperm2
        · show rest.length ≤ K
          have hlen2 : (d :: rest).length = K + 1 := by
            rw [← hcons]
            simp only [List.length_append, List.length_cons, List.length_nil]
            omega
          simp only [List.length_cons] at hlen2
          omega
  · -- the discard queue still has room
    have hlt : p.discard.length < K := lt_of_le_of_ne hLen hfull
    have hcond : ¬(((p.discard.length + 1 : Nat) : Int) > p.dontRepeatFor) := by
      rw [hK0]
      omega
    refine ⟨v, ⟨p.draw.eraseIdx (i : Nat), p.discard ++ [v], p.dontRepeatFor⟩,
      nextDraw_eq_nopop p r hlen0 v hv hcond, hvS, hvnotd, ?_, ?_⟩
    · show p.discard ++ [v] = lastK K (p.discard ++ [v])
      rw [lastK_of_le]
      simp only [List.length_append, List.length_cons, List.length_nil]
      omega
    · refine ⟨hK0, hperm2, ?_⟩
      show (p.discard ++ [v]).length ≤ K
      simp only [List.length_append, List.length_cons, List.length_nil]
      omega

/-- The pool invariant is preserved by every call (fruitful or not). -/
theorem nextDraw_inv (S K : Nat) (p : IndexDrawPool) (r : Nat) (hInv : PoolInv S K p) :
    PoolInv S K (p.nextDraw r).2 := by
  by_cases hne : p.draw = []
  · have h0 : p.draw.length = 0 := by simp [hne]
    rw [nextDraw_eq_empty p r h0]
    exact hInv
  · obtain ⟨v, p', he, _, _, _, hInv'⟩ := nextDraw_step S K p r hne hInv
    rw [he]
    exact hInv'

/-- Full characterisation of a run of `next` calls from an invariant state
with `K < S`: every call succeeds, values are in range, the final discard
queue holds the most recent `K` selections, and each selection avoids the
`K` selections before it. -/
theorem runPool_spec (S K : Nat) (hK : K < S) :
    ∀ (rs : List Nat) (p : IndexDrawPool), PoolInv S K p →
    ∃ vals : List Nat, (runPool p rs).1 = vals.map some ∧ vals.length = rs.length ∧
      (runPool p rs).2.discard = lastK K (p.discard ++ vals) ∧
      PoolInv S K (runPool p rs).2 ∧
      ∀ j (hj : j < vals.length), vals.get ⟨j, hj⟩ < S ∧
        vals.get ⟨j, hj⟩ ∉ lastK K (p.discard ++ vals.take j) := by
  intro rs
  induction rs with
  | nil =>
    intro p hInv
    refine ⟨[], rfl, rfl, ?_, hInv, ?_⟩
    · simp only [runPool, List.append_nil]
      exact (lastK_of_le K p.discard hInv.2.2).symm
    · intro j hj
      exact absurd hj (by simp)
  | cons r rs ih =>
    intro p hInv
    have hne : p.draw ≠ [] := by
      intro hempty
      have hlen := hInv.2.1.length_eq
      have hdlen := hInv.2.2
      simp only [List.length_append, List.length_range, hempty, List.length_nil] at hlen
      omega
    obtain ⟨v, p1, he, hvS, hvnotd, hd1, hInv1⟩ := nextDraw_step S K p r hne hInv
    obtain ⟨vals1, ho1, hl1, hd2, hInv2, hmem⟩ := ih p1 hInv1
    have hrun : runPool p (r :: rs) = ((some v) :: (runPool p1 rs).1, (runPool p1 rs).2) := by
      simp only [runPool, he]
    refine ⟨v :: vals1, ?_, ?_, ?_, ?_, ?_⟩
    · rw [hrun]
      simp [ho1]
    · simp [hl1]
    · rw [hrun]
      rw [hd2, hd1, lastK_lastK]
      congr 1
      simp
    · rw [hrun]
      exact hInv2
    · intro j hj
      match j with
      | 0 =>
        refine ⟨hvS, ?_⟩
        simp only [List.take_zero, List.append_nil, List.get]
        intro hmem0
        exact hvnotd (lastK_subset K p.discard _ hmem0)
      | j + 1 =>
        have hj1 : j < vals1.length := by simpa using hj
        obtain ⟨hS1, hnot1⟩ := hmem j hj1
        refine ⟨by simpa using hS1, ?_⟩
        have heq : p.discard ++ (v :: vals1).take (j + 1) =
            (p.discard ++ [v]) ++ vals1.take j := by
          simp
        simp only [List.get]
        rw [heq, ← lastK_lastK, ← hd1]
        exact hnot1

/-- An element whose index lies within the final `K` positions of a prefix is
a member of the `lastK` window of that prefix. -/
theorem mem_lastK_take (vals : List Nat) (K i j : Nat) (hij : i < j) (hji : j ≤ i + K)
    (hj : j ≤ vals.length) (hi : i < vals.length) :
    vals.get ⟨i, hi⟩ ∈ lastK K (vals.take j) := by
  unfold lastK
  have hlt : (vals.take j).length = j := by
    rw [List.length_take]
    omega
  have hb : i - (j - K) < ((vals.take j).drop ((vals.take j).length - K)).length := by
    rw [List.length_drop, hlt]
    omega
  have hmem := List.getElem_mem hb
  have heq : ((vals.take j).drop ((vals.take j).length - K)).get ⟨i - (j - K), hb⟩ =
      vals.get ⟨i, hi⟩ := by
    simp only [List.get_eq_getElem, List.getElem_drop, List.getElem_take]
    congr 1
    rw [hlt]
    omega
  rw [← heq]
  simpa using hmem

/-- The pool invariant is preserved by any sequence of draws. -/
theorem runPool_inv (S K : Nat) :
    ∀ (rs : List Nat) (p : IndexDrawPool), PoolInv S K p → PoolInv S K (runPool p rs).2 := by
  intro rs
  induction rs with
  | nil => intro p h; exact h
  | cons r rs ih =>
    intro p h
    have h1 := nextDraw_inv S K p r h
    simp only [runPool]
    exact ih _ h1

/-- Claim C3: for every draw pool with `sourceSize = S` and
`dontRepeatFor = K` where `S > K`, and every sequence of `next(randomInteger)`
calls with arbitrary non-negative integers: each returned index lies in
`[0, S)` and differs from every one of the previous `K` returned indexes, and
`next()` returns null only when the available draw collection is empty. -/
theorem C3_drawPool_antiRepeat (S K : Nat) (hK : K < S) (rs : List Nat) :
    (∀ (j : Nat) (o : Option Nat),
       (runPool (IndexDrawPool.init S K) rs).1.get? j = some o →
       ∃ v, o = some v ∧ v < S) ∧
    (∀ (i j : Nat) (x y : Option Nat), i < j → j ≤ i + K →
       (runPool (IndexDrawPool.init S K) rs).1.get? i = some x →
       (runPool (IndexDrawPool.init S K) rs).1.get? j = some y → y ≠ x) ∧
    (∀ (p : IndexDrawPool) (r : Nat), (p.nextDraw r).1 = none → p.draw = []) := by
  have hInv0 : PoolInv S K (IndexDrawPool.init S K) :=
    ⟨rfl, by simp [IndexDrawPool.init], by simp [IndexDrawPool.init]⟩
  obtain ⟨vals, ho, hl, hdisc, hInvEnd, hmem⟩ :=
    runPool_spec S K hK rs (IndexDrawPool.init S K) hInv0
  refine ⟨?_, ?_, ?_⟩
  · intro j o hjo
    rw [ho, List.get?_map] at hjo
    cases hvj : vals.get? j with
    | none => rw [hvj] at hjo; simp at hjo
    | some v =>
      rw [hvj] at hjo
      simp only [Option.map_some'] at hjo
      obtain ⟨hjlt, hgetv⟩ := List.get?_eq_some.mp hvj
      refine ⟨v, (Option.some.inj hjo).symm, ?_⟩
      have hv := (hmem j hjlt).1
      rwa [hgetv] at hv
  · intro i j x y hij hji hx hy
    rw [ho, List.get?_map] at hx hy
    cases hvi : vals.get? i with
    | none => rw [hvi] at hx; simp at hx
    | some vi =>
      cases hvj : vals.get? j with
      | none => rw [hvj] at hy; simp at hy
      | some vj =>
        rw [hvi] at hx
        rw [hvj] at hy
        simp only [Option.map_some'] at hx hy
        obtain ⟨hilt, hgi⟩ := List.get?_eq_some.mp hvi
        obtain ⟨hjlt, hgj⟩ := List.get?_eq_some.mp hvj
        have hne : vals.get ⟨j, hjlt⟩ ≠ vals.get ⟨i, hilt⟩ := by
          intro hcontra
          have hnot := (hmem j hjlt).2
          have hin : vals.get ⟨i, hilt⟩ ∈ lastK K (vals.take j) :=
            mem_lastK_take vals K i j hij hji (le_of_lt hjlt) hilt
          rw [hcontra] at hnot
          exact hnot (by simpa [IndexDrawPool.init] using hin)
        have hx1 : x = some vi := (Option.some.inj hx).symm
        have hy1 : y = some vj := (Option.some.inj hy).symm
        rw [hx1, hy1, ← hgi, ← hgj]
        intro hcontra
        exact hne (by injection hcontra)
  · intro p r hnone
    by_cases h : p.draw.length = 0
    · exact List.length_eq_zero.mp h
    · exfalso
      simp only [IndexDrawPool.nextDraw, dif_neg h] at hnone
      split at hnone
      · split at hnone <;> simp_all
      · simp at hnone

/-- Witness for C3: a pool of 3 indexes with a 1-draw anti-repeat window. -/
theorem C3_drawPool_antiRepeat_witness :
    (∀ (j : Nat) (o : Option Nat),
       (runPool (IndexDrawPool.init 3 1) [0, 0, 0, 5, 2]).1.get? j = some o →
       ∃ v, o = some v ∧ v < 3) ∧
    (∀ (i j : Nat) (x y : Option Nat), i < j → j ≤ i + 1 →
       (runPool (IndexDrawPool.init 3 1) [0, 0, 0, 5, 2]).1.get? i = some x →
       (runPool (IndexDrawPool.init 3 1) [0, 0, 0, 5, 2]).1.get? j = some y → y ≠ x) ∧
    (∀ (p : IndexDrawPool) (r : Nat), (p.nextDraw r).1 = none → p.draw = []) :=
  C3_drawPool_antiRepeat 3 1 (by norm_num) [0, 0, 0, 5, 2]

/-- Claim C10: after any call sequence, draw and discard are disjoint, their
union is exactly `{0, …, S−1}`, and discard holds at most `dontRepeatFor`
entries; pools created through `nextUniqueIndex` (which clamps
`dontRepeatFor` to `min(dontRepeatFor, sourceSize−1)`) keep a non-empty draw
collection for every `sourceSize ≥ 1`, so `next()` never returns null. -/
theorem C10_drawPool_invariant (S K : Nat) (rs : List Nat)
    (S1 : Nat) (h1 : 1 ≤ S1) (rs1 : List Nat) (r : Nat) :
    (((runPool (IndexDrawPool.init S K) rs).2.draw ++
        (runPool (IndexDrawPool.init S K) rs).2.discard).Perm (List.range S) ∧
      (runPool (IndexDrawPool.init S K) rs).2.draw.Disjoint
        (runPool (IndexDrawPool.init S K) rs).2.discard ∧
      (runPool (IndexDrawPool.init S K) rs).2.discard.length ≤ K) ∧
    ((runPool (mgrNewPool S1 8) rs1).2.draw ≠ [] ∧
      ∃ v q', (runPool (mgrNewPool S1 8) rs1).2.nextDraw r = (some v, q')) := by
  constructor
  · have hInv0 : PoolInv S K (IndexDrawPool.init S K) :=
      ⟨rfl, by simp [IndexDrawPool.init], by simp [IndexDrawPool.init]⟩
    obtain ⟨_, hPerm, hLen⟩ := runPool_inv S K rs _ hInv0
    have hnodup := hPerm.nodup_iff.mpr (List.nodup_range S)
    exact ⟨hPerm, (List.nodup_append.mp hnodup).2.2, hLen⟩
  · have hK1 : min 8 (S1 - 1) < S1 := by
      have := Nat.min_le_right 8 (S1 - 1)
      omega
    have hpool : mgrNewPool S1 8 = IndexDrawPool.init S1 ((min 8 (S1 - 1) : Nat) : Int) := by
      unfold mgrNewPool
      have h2 : ((S1 : Int) - 1) = ((S1 - 1 : Nat) : Int) := by omega
      rw [h2]
      congr 1
      simp [Nat.cast_min]
    have hInv0 : PoolInv S1 (min 8 (S1 - 1)) (mgrNewPool S1 8) := by
      rw [hpool]
      exact ⟨rfl, by simp [IndexDrawPool.init], by simp [IndexDrawPool.init]⟩
    have hInv := runPool_inv S1 (min 8 (S1 - 1)) rs1 _ hInv0
    have hne : (runPool (mgrNewPool S1 8) rs1).2.draw ≠ [] := by
      intro hempty
      have hlen := hInv.2.1.length_eq
      have hdlen := hInv.2.2
      simp only [List.length_append, List.length_range, hempty, List.length_nil] at hlen
      omega
    obtain ⟨v, q', he, _, _, _, _⟩ :=
      nextDraw_step S1 (min 8 (S1 - 1)) _ r hne hInv
    exact ⟨hne, v, q', he⟩

/-! ### Station step shape lemmas (shared by the station claims) -/

/-- The guarded transition draw only touches the generator and pools. -/
theorem talkDrawFrom_preserve (m : StationMetaM) (s : StationState) (cat : Nat)
    (tsOpt : Option (List AudioEntry)) (r : SegmentInfo × StationState)
    (h : talkDrawFrom m s cat tsOpt = some r) :
    r.2.accumulatedTime = s.accumulatedTime ∧ r.2.segmentIndex = s.segmentIndex ∧
    r.2.trackIndex = s.trackIndex ∧ r.2.segmentHistory = s.segmentHistory ∧
    r.2.historyLimit = s.historyLimit := by
  unfold talkDrawFrom at h
  split at h
  · exact absurd h (by simp)
  · split at h
    · exact absurd h (by simp)
    · simp only [Option.some.injEq] at h
      rw [← h]
      exact ⟨rfl, rfl, rfl, rfl, rfl⟩

/-- `getRandomTransition` (talkshow) only touches the generator and pools. -/
theorem talkTransition_preserve (m : StationMetaM) (s : StationState)
    (cat : Option Nat) (r : SegmentInfo × StationState)
    (h : talkTransition m s cat = some r) :
    r.2.accumulatedTime = s.accumulatedTime ∧ r.2.segmentIndex = s.segmentIndex ∧
    r.2.trackIndex = s.trackIndex ∧ r.2.segmentHistory = s.segmentHistory ∧
    r.2.historyLimit = s.historyLimit := by
  unfold talkTransition at h
  split at h
  · exact talkDrawFrom_preserve m s catIdents m.idList r h
  · exact talkDrawFrom_preserve m s catAdverts (some m.advertsCat) r h

/-- `getRandomId` (dynamic) only touches the pools. -/
theorem dynRandomId_preserve (m : StationMetaM) (rand : Nat) (s : StationState)
    (r : SegmentInfo × StationState) (h : dynRandomId m rand s = some r) :
    r.2.accumulatedTime = s.accumulatedTime ∧ r.2.segmentIndex = s.segmentIndex ∧
    r.2.trackIndex = s.trackIndex ∧ r.2.segmentHistory = s.segmentHistory ∧
    r.2.historyLimit = s.historyLimit := by
  unfold dynRandomId at h
  split at h
  · exact absurd h (by simp)
  · split at h
    · exact absurd h (by simp)
    · simp only [Option.some.injEq] at h
      rw [← h]
      exact ⟨rfl, rfl, rfl, rfl, rfl⟩

/-- `getRandomTransition` (dynamic) only touches the pools when it returns. -/
theorem dynRandomTransition_preserve (m : StationMetaM) (rand : Nat) (s : StationState)
    (si : SegmentInfo) (s1 : StationState) (h : dynRandomTransition m rand s = .ok (si, s1)) :
    s1.accumulatedTime = s.accumulatedTime ∧ s1.segmentIndex = s.segmentIndex ∧
    s1.trackIndex = s.trackIndex ∧ s1.segmentHistory = s.segmentHistory ∧
    s1.historyLimit = s.historyLimit := by
  unfold dynRandomTransition at h
  split at h
  · -- even draw: DJ solo list
    simp only [if_neg (show ¬(catDjsolo = catAdverts) by decide)] at h
    split at h
    · exact absurd h (by simp)
    · simp only [JsRes.ok.injEq, Prod.mk.injEq] at h
      rw [← h.2]
      exact ⟨rfl, rfl, rfl, rfl, rfl⟩
  · -- odd draw: common adverts list
    simp only [if_true, eq_self_iff_true] at h
    simp only [JsRes.ok.injEq, Prod.mk.injEq] at h
    rw [← h.2]
    exact ⟨rfl, rfl, rfl, rfl, rfl⟩

/-- `impl_nextSegment` only touches the generator and pools: the counters,
accumulated time, history and history limit pass through untouched. -/
theorem implNextA_preserve (m : StationMetaM)
    (stepF : StationState → JsRes (SegmentInfo × StationState)) (s : StationState)
    (si : SegmentInfo) (s1 : StationState)
    (h : implNextA m stepF s = .ok (si, s1)) :
    s1.accumulatedTime = s.accumulatedTime ∧ s1.segmentIndex = s.segmentIndex ∧
    s1.trackIndex = s.trackIndex ∧ s1.segmentHistory = s.segmentHistory ∧
    s1.historyLimit = s.historyLimit := by
  cases hty : m.stype with
  | static =>
    simp only [implNextA, hty, JsRes.ok.injEq, Prod.mk.injEq] at h
    rw [← h.2]
    exact ⟨rfl, rfl, rfl, rfl, rfl⟩
  | talkshow =>
    simp only [implNextA, hty] at h
    cases hp : peekAux m stepF 0 s with
    | ok cur =>
      rw [hp] at h
      simp only [JsRes.bindR] at h
      split at h
      · rename_i r heq
        have hr : r = (si, s1) := by simpa using h
        subst hr
        split at heq
        · exact talkTransition_preserve m s _ _ heq
        · exact absurd heq (by simp)
      · simp only [JsRes.ok.injEq, Prod.mk.injEq] at h
        rw [← h.2]
        exact ⟨rfl, rfl, rfl, rfl, rfl⟩
    | thrown => rw [hp] at h; exact absurd h (by simp [JsRes.bindR])
    | fuelOut => rw [hp] at h; exact absurd h (by simp [JsRes.bindR])
  | dynamic =>
    simp only [implNextA, hty] at h
    cases hp : peekAux m stepF 0 (prngDraw s).2 with
    | ok cur =>
      rw [hp] at h
      simp only [JsRes.bindR] at h
      split at h
      · -- current category is ADVERTS: ident draw or track fallback
        split at h
        · rename_i r hid
          simp only [JsRes.ok.injEq] at h
          rw [h] at hid
          exact dynRandomId_preserve m (prngDraw s).1 (prngDraw s).2 (si, s1) hid
        · simp only [dynRandomTrack, JsRes.ok.injEq, Prod.mk.injEq] at h
          rw [← h.2]
          exact ⟨rfl, rfl, rfl, rfl, rfl⟩
      · split at h
        · exact dynRandomTransition_preserve m (prngDraw s).1 (prngDraw s).2 si s1 h
        · simp only [dynRandomTrack, JsRes.ok.injEq, Prod.mk.injEq] at h
          rw [← h.2]
          exact ⟨rfl, rfl, rfl, rfl, rfl⟩
    | thrown => rw [hp] at h; exact absurd h (by simp [JsRes.bindR])
    | fuelOut => rw [hp] at h; exact absurd h (by simp [JsRes.bindR])

/-- `resolveIntroStep` only touches the generator. -/
theorem resolveIntroStep_preserve (si : SegmentInfo) (s s1 : StationState)
    (h : resolveIntroStep si s = .ok s1) :
    s1.accumulatedTime = s.accumulatedTime ∧ s1.segmentIndex = s.segmentIndex ∧
    s1.trackIndex = s.trackIndex ∧ s1.segmentHistory = s.segmentHistory ∧
    s1.historyLimit = s.historyLimit := by
  unfold resolveIntroStep at h
  split at h
  · simp only [JsRes.ok.injEq] at h
    rw [← h]
    exact ⟨rfl, rfl, rfl, rfl, rfl⟩
  · split at h
    · simp only [JsRes.ok.injEq] at h
      rw [← h]
      exact ⟨rfl, rfl, rfl, rfl, rfl⟩
    · exact absurd h (by simp)
    · simp only [JsRes.ok.injEq] at h
      rw [← h]
      exact ⟨rfl, rfl, rfl, rfl, rfl⟩

/-- `resolveOutroStep` only touches the generator and pools. -/
theorem resolveOutroStep_preserve (m : StationMetaM) (upcoming : Option SegmentInfo)
    (s s1 : StationState) (h : resolveOutroStep m upcoming s = .ok s1) :
    s1.accumulatedTime = s.accumulatedTime ∧ s1.segmentIndex = s.segmentIndex ∧
    s1.trackIndex = s.trackIndex ∧ s1.segmentHistory = s.segmentHistory ∧
    s1.historyLimit = s.historyLimit := by
  unfold resolveOutroStep at h
  split at h
  · exact absurd h (by simp)
  · split at h
    · split at h
      · simp only [JsRes.ok.injEq] at h
        rw [← h]
        exact ⟨rfl, rfl, rfl, rfl, rfl⟩
      · simp only [] at h
        split at h
        · exact absurd h (by simp)
        · simp only [JsRes.ok.injEq] at h
          rw [← h]
          exact ⟨rfl, rfl, rfl, rfl, rfl⟩
    · simp only [JsRes.ok.injEq] at h
      rw [← h]
      exact ⟨rfl, rfl, rfl, rfl, rfl⟩

/-- The dynamic voiceover-resolution effects only touch generator and pools. -/
theorem resolveDyn_preserve (m : StationMetaM)
    (stepF : StationState → JsRes (SegmentInfo × StationState)) (si : SegmentInfo)
    (s s' : StationState) (h : resolveSegmentDyn m stepF si s = .ok s') :
    s'.accumulatedTime = s.accumulatedTime ∧ s'.segmentIndex = s.segmentIndex ∧
    s'.trackIndex = s.trackIndex ∧ s'.segmentHistory = s.segmentHistory ∧
    s'.historyLimit = s.historyLimit := by
  unfold resolveSegmentDyn at h
  cases hp : peekAux m stepF 1 s with
  | ok upcoming =>
    rw [hp] at h
    simp only [JsRes.bindR] at h
    cases hi : resolveIntroStep si s with
    | ok s1 =>
      rw [hi] at h
      simp only [JsRes.bindR] at h
      have h1 := resolveIntroStep_preserve si s s1 hi
      have h2 := resolveOutroStep_preserve m upcoming s1 s' h
      exact ⟨h2.1.trans h1.1, h2.2.1.trans h1.2.1, h2.2.2.1.trans h1.2.2.1,
        h2.2.2.2.1.trans h1.2.2.2.1, h2.2.2.2.2.trans h1.2.2.2.2⟩
    | thrown => rw [hi] at h; exact absurd h (by simp [JsRes.bindR])
    | fuelOut => rw [hi] at h; exact absurd h (by simp [JsRes.bindR])
  | thrown => rw [hp] at h; exact absurd h (by simp [JsRes.bindR])
  | fuelOut => rw [hp] at h; exact absurd h (by simp [JsRes.bindR])

/-- `_newPlayableSegment` returns the playable built from the pre-update
accumulated time, and only touches generator and pools. -/
theorem newPlayable_shape (m : StationMetaM)
    (stepF : StationState → JsRes (SegmentInfo × StationState)) (si : SegmentInfo)
    (s2 : StationState) (pr : Playable × StationState)
    (h : newPlayable m stepF si s2 = .ok pr) :
    pr.1 = mkPlayable m si s2 ∧
    pr.2.accumulatedTime = s2.accumulatedTime ∧ pr.2.segmentIndex = s2.segmentIndex ∧
    pr.2.trackIndex = s2.trackIndex ∧ pr.2.segmentHistory = s2.segmentHistory ∧
    pr.2.historyLimit = s2.historyLimit := by
  unfold newPlayable at h
  cases hres : resolveSeg m si with
  | thrown => rw [hres] at h; exact absurd h (by simp [JsRes.bindR])
  | fuelOut => rw [hres] at h; exact absurd h (by simp [JsRes.bindR])
  | ok rsi =>
  rw [hres] at h
  simp only [JsRes.bindR] at h
  split at h
  · cases hr : resolveSegmentDyn m stepF si s2 with
    | ok s1 =>
      rw [hr] at h
      simp only [JsRes.bindR, JsRes.ok.injEq] at h
      rw [← h]
      have hpres := resolveDyn_preserve m stepF si s2 s1 hr
      exact ⟨rfl, hpres.1, hpres.2.1, hpres.2.2.1, hpres.2.2.2.1, hpres.2.2.2.2⟩
    | thrown => rw [hr] at h; exact absurd h (by simp [JsRes.bindR])
    | fuelOut => rw [hr] at h; exact absurd h (by simp [JsRes.bindR])
  · simp only [JsRes.ok.injEq] at h
    rw [← h]
    exact ⟨rfl, rfl, rfl, rfl, rfl, rfl⟩

/-- The full shape of one successful `nextSegment()` call: the selected raw
segment `si`, the playable built from the pre-call accumulated time, and the
state updates of `_nextSegmentInfo`. -/
theorem nextSegmentF_shape (m : StationMetaM) (fuel : Nat) (s : StationState)
    (p : Playable) (s' : StationState) (h : nextSegmentF m fuel s = .ok (p, s')) :
    ∃ si : SegmentInfo,
      p.info = resolvedSeg m si ∧
      p.startTimestamp = s.accumulatedTime.map (fun a => (m.epoch : ℚ) + a * 1000) ∧
      s'.segmentIndex = s.segmentIndex + 1 ∧
      s'.historyLimit = s.historyLimit ∧
      s'.segmentHistory = (si :: s.segmentHistory).take s.historyLimit ∧
      s'.accumulatedTime = jsAdd s.accumulatedTime (segDur si) ∧
      p.info.category = si.category ∧
      segDur p.info = segDur si ∧
      (si.category = catMusic → s'.trackIndex = s.trackIndex + 1) ∧
      (¬si.category = catMusic → s'.trackIndex = s.trackIndex) := by
  cases fuel with
  | zero => exact absurd h (by simp [nextSegmentF])
  | succ f =>
    simp only [nextSegmentF] at h
    cases hi : implNextA m (fun st => stepPlain m f st) s with
    | ok r =>
      rw [hi] at h
      simp only [JsRes.bindR] at h
      cases hnp : newPlayable m (fun st => stepPlain m f st) r.1 (registerHistory r.1 r.2) with
      | ok pr =>
        rw [hnp] at h
        simp only [JsRes.bindR, JsRes.ok.injEq, Prod.mk.injEq] at h
        obtain ⟨hp1, hs1⟩ := h
        obtain ⟨ha, hsi, hti, hh, hl⟩ := implNextA_preserve m _ s r.1 r.2 hi
        obtain ⟨hpr1, ha2, hsi2, hti2, hh2, hl2⟩ := newPlayable_shape m _ r.1 _ pr hnp
        have hreg : (registerHistory r.1 r.2).accumulatedTime = s.accumulatedTime ∧
            (registerHistory r.1 r.2).segmentIndex = s.segmentIndex ∧
            (registerHistory r.1 r.2).trackIndex = s.trackIndex ∧
            (registerHistory r.1 r.2).historyLimit = s.historyLimit ∧
            (registerHistory r.1 r.2).segmentHistory =
              (r.1 :: s.segmentHistory).take s.historyLimit := by
          refine ⟨ha, hsi, hti, hl, ?_⟩
          simp only [registerHistory, hh, hl]
        refine ⟨r.1, ?_, ?_, ?_, ?_, ?_, ?_, ?_, ?_, ?_, ?_⟩
        · rw [← hp1, hpr1, mkPlayable]
        · rw [← hp1, hpr1]
          simp only [mkPlayable, hreg.1]
        · rw [← hs1]
          by_cases hcat : r.1.category = catMusic <;>
            simp [postUpdate, setPrngIndex, hcat, hsi2, hreg.2.1]
        · rw [← hs1]
          by_cases hcat : r.1.category = catMusic <;>
            simp [postUpdate, setPrngIndex, hcat, hl2, hreg.2.2.2.1]
        · rw [← hs1]
          by_cases hcat : r.1.category = catMusic <;>
            simp [postUpdate, setPrngIndex, hcat, hh2, hreg.2.2.2.2]
        · rw [← hs1]
          by_cases hcat : r.1.category = catMusic <;>
            simp [postUpdate, setPrngIndex, hcat, ha2, hreg.1]
        · rw [← hp1, hpr1]
          simp [mkPlayable, resolvedSeg]
        · rw [← hp1, hpr1]
          simp only [mkPlayable]
          cases he : r.1.entry <;> simp [segDur, resolvedSeg, he, entryDur]
        · intro hcat
          rw [← hs1]
          simp [postUpdate, setPrngIndex, hcat, hti2, hreg.2.2.1]
        · intro hcat
          rw [← hs1]
          simp [postUpdate, setPrngIndex, hcat, hti2, hreg.2.2.1]
      | thrown => rw [hnp] at h; exact absurd h (by simp [JsRes.bindR])
      | fuelOut => rw [hnp] at h; exact absurd h (by simp [JsRes.bindR])
    | thrown => rw [hi] at h; exact absurd h (by simp [JsRes.bindR])
    | fuelOut => rw [hi] at h; exact absurd h (by simp [JsRes.bindR])

/-- Claim C1: for a fixed generator seed (the start-of-month epoch, part of
the fixed metadata) two independent station instances each performing
`resetState()` followed by the same number `N` of `nextSegment()` calls
produce identical sequences of segment categories, paths and
`startTimestamp` values, for every `N` and every station type.  The two
instances may start from arbitrary prior states; `resetState()` clears
everything except the configured history limit, which fresh instances share
(default 2). -/
theorem C1_determinism (m : StationMetaM) (fuel N : Nat) (s1 s2 : StationState)
    (hcfg : s1.historyLimit = s2.historyLimit) :
    traceN m fuel N (resetStateF m s1) = traceN m fuel N (resetStateF m s2) := by
  have hreset : resetStateF m s1 = resetStateF m s2 := by
    unfold resetStateF initState
    rw [hcfg]
  rw [hreset]

/-- Witness for C1: two different prior states, identical traces. -/
theorem C1_determinism_witness :
    traceN exStatic3 1 3 (resetStateF exStatic3 (initState exStatic3 2)) =
    traceN exStatic3 1 3 (resetStateF exStatic3 exTalkAdvertState) :=
  C1_determinism exStatic3 1 3 (initState exStatic3 2) exTalkAdvertState rfl

/-- Claim C5, counterexample to the claim as stated: a track with
`audibleDuration` present but equal to 0 (falsy in JS).  The claim demands
that the present `audibleDuration` (0) be added to `accumulatedTime`
(leaving `some 0`), but the code's `audibleDuration || duration` falls
through to the duration and adds 5. -/
theorem C5_audible_zero_counterexample :
    ((nextSegmentF exStaticAud0 1 (initState exStaticAud0 2)).bindR fun r =>
       .ok (r.1.info.entry.map fun e => e.audibleDuration, r.2.accumulatedTime))
      = .ok (some (some 0), some 5) ∧
    jsAdd (initState exStaticAud0 2).accumulatedTime (some 0) = some 0 ∧
    (some (5 : ℚ)) ≠ some 0 := by
  refine ⟨by with_unfolding_all rfl, by with_unfolding_all rfl, by simp⟩

/-- Claim C5 (amended: the accumulated time advances by `audibleDuration`
when it is present *and non-zero*, otherwise by `duration` — JS `||`
semantics): every `nextSegment()` call advances `segmentIndex` by exactly 1,
advances `trackIndex` by exactly 1 iff the selected category is MUSIC, adds
the segment's audible duration to `accumulatedTime`, and returns a playable
segment whose `startTimestamp` is `epoch + accumulatedTime-before * 1000`;
in particular the Fixed-Playlist station with tracks of 100/200/150 seconds
selects track indexes 0,1,2,0 over four calls with `accumulatedTime`
progressing 100, 300, 450, 550. -/
theorem C5_nextSegment_update (m : StationMetaM) (fuel : Nat) (s : StationState)
    (p : Playable) (s' : StationState) (h : nextSegmentF m fuel s = .ok (p, s')) :
    (s'.segmentIndex = s.segmentIndex + 1 ∧
     (s'.trackIndex = s.trackIndex + 1 ↔ p.info.category = catMusic) ∧
     s'.accumulatedTime = jsAdd s.accumulatedTime (segDur p.info) ∧
     p.startTimestamp = s.accumulatedTime.map (fun a => (m.epoch : ℚ) + a * 1000)) ∧
    (traceN exStatic3 1 4 (initState exStatic3 2) =
      [.ok (catMusic, some "data/st/a", some 0),
       .ok (catMusic, some "data/st/b", some 100000),
       .ok (catMusic, some "data/st/c", some 300000),
       .ok (catMusic, some "data/st/a", some 450000)] ∧
     (runN exStatic3 1 1 (initState exStatic3 2)).bindR
        (fun st => .ok st.accumulatedTime) = .ok (some 100) ∧
     (runN exStatic3 1 2 (initState exStatic3 2)).bindR
        (fun st => .ok st.accumulatedTime) = .ok (some 300) ∧
     (runN exStatic3 1 3 (initState exStatic3 2)).bindR
        (fun st => .ok st.accumulatedTime) = .ok (some 450) ∧
     (runN exStatic3 1 4 (initState exStatic3 2)).bindR
        (fun st => .ok st.accumulatedTime) = .ok (some 550)) := by
  obtain ⟨si, _, hts, hidx, _, _, hacc, hcat, hdur, hmus, hnot⟩ :=
    nextSegmentF_shape m fuel s p s' h
  refine ⟨⟨hidx, ?_, ?_, hts⟩, by with_unfolding_all rfl, by with_unfolding_all rfl,
    by with_unfolding_all rfl, by with_unfolding_all rfl, by with_unfolding_all rfl⟩
  · constructor
    · intro htr
      by_contra hne
      rw [hcat] at hne
      have := hnot hne
      omega
    · intro hc
      rw [hcat] at hc
      exact hmus hc
  · rw [hacc, hdur]

/-- Witness for C5 at the first call of the three-track playlist station. -/
theorem C5_nextSegment_update_witness :
    ((⟨some 100, 1, 1, [⟨some exTrackA, catMusic⟩], ⟨0, 0⟩, [], 2⟩ : StationState).segmentIndex =
        (initState exStatic3 2).segmentIndex + 1 ∧
     ((⟨some 100, 1, 1, [⟨some exTrackA, catMusic⟩], ⟨0, 0⟩, [], 2⟩ : StationState).trackIndex =
          (initState exStatic3 2).trackIndex + 1 ↔
        (⟨⟨some ⟨"data/st/a", 100, none, none⟩, catMusic⟩, some 0⟩ : Playable).info.category =
          catMusic) ∧
     (⟨some 100, 1, 1, [⟨some exTrackA, catMusic⟩], ⟨0, 0⟩, [], 2⟩ : StationState).accumulatedTime =
        jsAdd (initState exStatic3 2).accumulatedTime
          (segDur (⟨⟨some ⟨"data/st/a", 100, none, none⟩, catMusic⟩, some 0⟩ : Playable).info) ∧
     (⟨⟨some ⟨"data/st/a", 100, none, none⟩, catMusic⟩, some 0⟩ : Playable).startTimestamp =
        (initState exStatic3 2).accumulatedTime.map
          (fun a => (exStatic3.epoch : ℚ) + a * 1000)) ∧
    (traceN exStatic3 1 4 (initState exStatic3 2) =
      [.ok (catMusic, some "data/st/a", some 0),
       .ok (catMusic, some "data/st/b", some 100000),
       .ok (catMusic, some "data/st/c", some 300000),
       .ok (catMusic, some "data/st/a", some 450000)] ∧
     (runN exStatic3 1 1 (initState exStatic3 2)).bindR
        (fun st => .ok st.accumulatedTime) = .ok (some 100) ∧
     (runN exStatic3 1 2 (initState exStatic3 2)).bindR
        (fun st => .ok st.accumulatedTime) = .ok (some 300) ∧
     (runN exStatic3 1 3 (initState exStatic3 2)).bindR
        (fun st => .ok st.accumulatedTime) = .ok (some 450) ∧
     (runN exStatic3 1 4 (initState exStatic3 2)).bindR
        (fun st => .ok st.accumulatedTime) = .ok (some 550)) :=
  C5_nextSegment_update exStatic3 1 (initState exStatic3 2)
    ⟨⟨some ⟨"data/st/a", 100, none, none⟩, catMusic⟩, some 0⟩
    ⟨some 100, 1, 1, [⟨some exTrackA, catMusic⟩], ⟨0, 0⟩, [], 2⟩ (by with_unfolding_all rfl)

/-- Claim C9: `peekSegment(offset)` leaves the live station's state
unchanged for every offset (the threaded state passes through — every write
in the source body targets the simulated clone); in particular, immediately
after a `nextSegment()` call, `peekSegment(0)` returns the history head,
returns the same value on repeated calls, and still leaves the state
unchanged. -/
theorem C9_peek_frame (m : StationMetaM) (fuel : Nat) (offset : Int) (s : StationState)
    (fuel2 : Nat) (s0 : StationState) (p : Playable) (s' : StationState)
    (hstep : nextSegmentF m fuel2 s0 = .ok (p, s'))
    (hlim : 1 ≤ s0.historyLimit) :
    (peekSegmentT m fuel offset s).2 = s ∧
    (peekSegmentT m fuel 0 s').2 = s' ∧
    (peekSegmentT m fuel 0 (peekSegmentT m fuel 0 s').2).1 = (peekSegmentT m fuel 0 s').1 ∧
    ∃ si tail, s'.segmentHistory = si :: tail ∧
      (peekSegmentT m fuel 0 s').1 = .ok (some si) := by
  obtain ⟨si, _, _, hidx, hlim', hhist, _⟩ := nextSegmentF_shape m fuel2 s0 p s' hstep
  refine ⟨rfl, rfl, rfl, ?_⟩
  obtain ⟨k, hk⟩ : ∃ k, s0.historyLimit = k + 1 := by
    cases hh : s0.historyLimit with
    | zero => omega
    | succ k => exact ⟨k, rfl⟩
  have hcons : s'.segmentHistory = si :: s0.segmentHistory.take k := by
    rw [hhist, hk]
    simp
  refine ⟨si, s0.segmentHistory.take k, hcons, ?_⟩
  have hpos : ¬((s'.segmentIndex : Int) + 0 ≤ 0) := by
    rw [hidx]
    push_cast
    omega
  simp only [peekSegmentT, peekAux]
  rw [if_pos (le_refl (0 : Int)), if_neg hpos]
  have htn : ((-(0 : Int)).toNat) = 0 := by simp
  rw [htn, hcons]
  rfl

/-- Witness for C9 after a concrete `nextSegment()` call. -/
theorem C9_peek_frame_witness :
    (peekSegmentT exStatic3 1 (-2) exTalkAdvertState).2 = exTalkAdvertState ∧
    (peekSegmentT exStatic3 1 0
        (⟨some 100, 1, 1, [⟨some exTrackA, catMusic⟩], ⟨0, 0⟩, [], 2⟩ : StationState)).2 =
      ⟨some 100, 1, 1, [⟨some exTrackA, catMusic⟩], ⟨0, 0⟩, [], 2⟩ ∧
    (peekSegmentT exStatic3 1 0
        (peekSegmentT exStatic3 1 0
          (⟨some 100, 1, 1, [⟨some exTrackA, catMusic⟩], ⟨0, 0⟩, [], 2⟩ : StationState)).2).1 =
      (peekSegmentT exStatic3 1 0
        (⟨some 100, 1, 1, [⟨some exTrackA, catMusic⟩], ⟨0, 0⟩, [], 2⟩ : StationState)).1 ∧
    ∃ si tail,
      (⟨some 100, 1, 1, [⟨some exTrackA, catMusic⟩], ⟨0, 0⟩, [], 2⟩ : StationState).segmentHistory =
        si :: tail ∧
      (peekSegmentT exStatic3 1 0
          (⟨some 100, 1, 1, [⟨some exTrackA, catMusic⟩], ⟨0, 0⟩, [], 2⟩ : StationState)).1 =
        .ok (some si) :=
  C9_peek_frame exStatic3 1 (-2) exTalkAdvertState 1 (initState exStatic3 2)
    ⟨⟨some ⟨"data/st/a", 100, none, none⟩, catMusic⟩, some 0⟩
    ⟨some 100, 1, 1, [⟨some exTrackA, catMusic⟩], ⟨0, 0⟩, [], 2⟩
    (by with_unfolding_all rfl) (by decide)

/-- Claim C6 (refuted, bug evidence): with an empty required `track` list,
`getSyncedSegment()` never terminates instead of failing with a selection
error.  Selection yields an `undefined` entry whose duration is `undefined`,
the accumulated time turns NaN, and the loop's `time > now` check is false
forever: for every loop bound the model exhausts the bound, at every call
time, from every prior state. -/
theorem C6_sync_empty_track_diverges (fuel iterFuel : Nat) (nowAbs : ℚ) (s : StationState) :
    getSynced exStaticEmpty fuel iterFuel nowAbs s = .fuelOut := by
  have hadd : ∀ a : Option ℚ, jsAdd a none = none := fun a => by cases a <;> rfl
  unfold getSynced
  generalize (nowAbs - (exStaticEmpty.epoch : ℚ)) = now
  generalize (resetStateF exStaticEmpty s) = s0
  induction iterFuel generalizing s0 with
  | zero => rfl
  | succ k ih =>
    have himpl : implNextA exStaticEmpty (fun st => stepPlain exStaticEmpty fuel st) s0 =
        .ok (⟨none, catMusic⟩, s0) := rfl
    have hstep : syncStep exStaticEmpty fuel now s0 =
        .ok (none, postUpdate ⟨none, catMusic⟩
          (setPrngIndex (registerHistory ⟨none, catMusic⟩ s0)
            (registerHistory ⟨none, catMusic⟩ s0).prng.index)) := by
      unfold syncStep
      rw [himpl]
      simp only [JsRes.bindR]
      have htime : (jsAdd (registerHistory ⟨none, catMusic⟩ s0).accumulatedTime
          (segDur ⟨none, catMusic⟩)).map (· * 1000) = none := by
        rw [show segDur ⟨none, catMusic⟩ = none from rfl, hadd]
        rfl
      rw [htime]
      rfl
    rw [show syncLoop exStaticEmpty fuel (k + 1) now s0 =
        (syncStep exStaticEmpty fuel now s0).bindR fun co =>
          match co.1 with
          | some p => .ok (p, co.2)
          | none => syncLoop exStaticEmpty fuel k now co.2 from rfl]
    rw [hstep]
    exact ih _

/-- Claim C8 (refuted, bug evidence): after 10 `nextSegment()` calls on the
three-track playlist station with `historyLimit = 2`, `peekSegment(-5)`
takes the replay path and runs `targetIndex + 1 = 6` selections, returning
the 6th selection (track `c`), while replaying 5 selections from a freshly
reset station — what direct history would have returned — yields the 5th
selection (track `b`).  The replay fallback is off by one relative to the
history path. -/
theorem C8_replay_off_by_one :
    (runN exStatic3 1 10 (initState exStatic3 2)).bindR
        (fun s10 => (peekSegmentT exStatic3 1 (-5) s10).1)
      = .ok (some ⟨some exTrackC, catMusic⟩) ∧
    (simLoop (fun st => stepPlain exStatic3 1 st) 5 none (initState exStatic3 2)).bindR
        (fun r => .ok r.1) = .ok (some ⟨some exTrackB, catMusic⟩) ∧
    (⟨some exTrackC, catMusic⟩ : SegmentInfo) ≠ ⟨some exTrackB, catMusic⟩ := by
  refine ⟨by with_unfolding_all rfl, by with_unfolding_all rfl, ?_⟩
  intro hcontra
  have hpath := congrArg (fun si : SegmentInfo => si.entry.map (·.path)) hcontra
  simp [exTrackC, exTrackB] at hpath

/-- Path resolution preserves the audible duration of a segment. -/
theorem segDur_resolvedSeg (m : StationMetaM) (si : SegmentInfo) :
    segDur (resolvedSeg m si) = segDur si := by
  cases he : si.entry <;> simp [resolvedSeg, segDur, he, entryDur]

/-- The synchronisation loop is stable under moving the query instant later,
as long as it stays before the end time of the returned segment: the loop
takes identical branches until the accepting step, whose check still
succeeds. -/
theorem syncLoop_stable (m : StationMetaM) (fuel : Nat) (now1 now2 : ℚ) (hle : now1 ≤ now2) :
    ∀ (iter : Nat) (s : StationState) (p : Playable) (s' : StationState),
      syncLoop m fuel iter now1 s = .ok (p, s') →
      ∃ e, segEndAbs p = some e ∧ (m.epoch : ℚ) + now1 < e ∧
        ((m.epoch : ℚ) + now2 < e → syncLoop m fuel iter now2 s = .ok (p, s')) := by
  intro iter
  induction iter with
  | zero =>
    intro s p s' h
    exact absurd h (by simp [syncLoop])
  | succ k ih =>
    intro s p s' h
    have hloop1 : syncLoop m fuel (k + 1) now1 s =
        (syncStep m fuel now1 s).bindR fun co =>
          match co.1 with
          | some q => .ok (q, co.2)
          | none => syncLoop m fuel k now1 co.2 := rfl
    have hloop2 : syncLoop m fuel (k + 1) now2 s =
        (syncStep m fuel now2 s).bindR fun co =>
          match co.1 with
          | some q => .ok (q, co.2)
          | none => syncLoop m fuel k now2 co.2 := rfl
    rw [hloop1] at h
    unfold syncStep at h
    cases hi : implNextA m (fun st => stepPlain m fuel st) s with
    | thrown => rw [hi] at h; simp [JsRes.bindR] at h
    | fuelOut => rw [hi] at h; simp [JsRes.bindR] at h
    | ok r =>
      rw [hi] at h
      simp only [JsRes.bindR] at h
      cases hgt : jsGt ((jsAdd (registerHistory r.1 r.2).accumulatedTime
          (segDur r.1)).map (· * 1000)) now1 with
      | false =>
        rw [hgt] at h
        rw [if_neg (by simp)] at h
        simp only [JsRes.bindR] at h
        obtain ⟨e, he, hlt1, himp⟩ := ih _ _ _ h
        refine ⟨e, he, hlt1, fun hb => ?_⟩
        rw [hloop2]
        unfold syncStep
        rw [hi]
        simp only [JsRes.bindR]
        have hgt2 : jsGt ((jsAdd (registerHistory r.1 r.2).accumulatedTime
            (segDur r.1)).map (· * 1000)) now2 = false := by
          cases hadd : jsAdd (registerHistory r.1 r.2).accumulatedTime (segDur r.1) with
          | none => simp [jsGt, hadd]
          | some t0 =>
            rw [hadd] at hgt
            simp only [jsGt, Option.map] at hgt ⊢
            simp only [decide_eq_false_iff_not] at hgt ⊢
            intro hcon
            exact hgt (by linarith)
        rw [hgt2]
        rw [if_neg (by simp)]
        simp only [JsRes.bindR]
        exact himp hb
      | true =>
        rw [hgt] at h
        rw [if_pos rfl] at h
        cases hnp : newPlayable m (fun st => stepPlain m fuel st) r.1
            (registerHistory r.1 r.2) with
        | thrown => rw [hnp] at h; simp [JsRes.bindR] at h
        | fuelOut => rw [hnp] at h; simp [JsRes.bindR] at h
        | ok pr =>
          rw [hnp] at h
          simp only [JsRes.bindR, JsRes.ok.injEq, Prod.mk.injEq] at h
          obtain ⟨hp, hsx⟩ := h
          have htv : ∃ a d, (registerHistory r.1 r.2).accumulatedTime = some a ∧
              segDur r.1 = some d ∧ now1 < (a + d) * 1000 := by
            cases hacc : (registerHistory r.1 r.2).accumulatedTime with
            | none =>
              rw [hacc] at hgt
              rw [show jsAdd none (segDur r.1) = none by cases segDur r.1 <;> rfl] at hgt
              simp [jsGt] at hgt
            | some a =>
              cases hdur : segDur r.1 with
              | none =>
                rw [hacc, hdur] at hgt
                simp [jsGt, jsAdd] at hgt
              | some d =>
                rw [hacc, hdur] at hgt
                simp only [jsAdd, Option.map_some', jsGt, decide_eq_true_eq] at hgt
                exact ⟨a, d, rfl, rfl, hgt⟩
          obtain ⟨a, d, hacc, hdur, hlt⟩ := htv
          obtain ⟨hpr1, _, _, _, _, _⟩ :=
            newPlayable_shape m (fun st => stepPlain m fuel st) r.1 _ pr hnp
          refine ⟨(m.epoch : ℚ) + (a + d) * 1000, ?_, by linarith, fun hb => ?_⟩
          · rw [← hp, hpr1]
            simp only [segEndAbs, mkPlayable, hacc, segDur_resolvedSeg, hdur,
              Option.map_some', Option.some.injEq]
            ring
          · rw [hloop2]
            unfold syncStep
            rw [hi]
            simp only [JsRes.bindR]
            have hgt2 : jsGt ((jsAdd (registerHistory r.1 r.2).accumulatedTime
                (segDur r.1)).map (· * 1000)) now2 = true := by
              rw [hacc, hdur]
              simp only [jsAdd, Option.map_some', jsGt, decide_eq_true_eq]
              linarith
            rw [hgt2]
            rw [if_pos rfl]
            rw [hnp]
            simp only [JsRes.bindR]
            rw [hp, hsx]

/-- Claim C2, counterexample to the claim as stated: on a single-track
station (100 s track, epoch 0), `getSyncedSegment()` at instants 99500 ms
and 100300 ms — less than one second apart — straddles the segment boundary
at 100000 ms and returns different segments with different
`startTimestamp`s. -/
theorem C2_boundary_counterexample :
    (100300 : ℚ) - 99500 < 1000 ∧
    ((getSynced exStatic1 1 5 99500 (initState exStatic1 2)).bindR fun r =>
      .ok r.1.startTimestamp) = .ok (some 0) ∧
    ((getSynced exStatic1 1 5 100300 (initState exStatic1 2)).bindR fun r =>
      .ok r.1.startTimestamp) = .ok (some 100000) ∧
    (some (0 : ℚ)) ≠ some 100000 := by
  refine ⟨by norm_num, by with_unfolding_all rfl, by with_unfolding_all rfl, by simp⟩

/-- Claim C2 (amended: the two instants must also fall before the returned
segment's end time, i.e. not straddle a segment boundary): two
`getSyncedSegment()` calls less than one second apart return the same
segment with the same `startTimestamp` provided the later instant is still
earlier than the end time (`startTimestamp` plus audible duration) of the
segment the first call returned. -/
theorem C2_sync_stability (m : StationMetaM) (fuel iterFuel : Nat) (s : StationState)
    (now1 now2 : ℚ) (p : Playable) (s' : StationState) (e : ℚ)
    (hle : now1 ≤ now2) (hgap : now2 - now1 < 1000)
    (h1 : getSynced m fuel iterFuel now1 s = .ok (p, s'))
    (he : segEndAbs p = some e) (hlt : now2 < e) :
    getSynced m fuel iterFuel now2 s = .ok (p, s') := by
  unfold getSynced at h1 ⊢
  obtain ⟨e', he', _, himp⟩ :=
    syncLoop_stable m fuel (now1 - (m.epoch : ℚ)) (now2 - (m.epoch : ℚ))
      (by linarith) iterFuel (resetStateF m s) p s' h1
  rw [he] at he'
  have hee : e = e' := by
    injection he'
  apply himp
  rw [← hee]
  linarith

/-- Witness for C2 on the single-track station: instants 500 ms and 900 ms
both fall inside the first 100-second track. -/
theorem C2_sync_stability_witness :
    getSynced exStatic1 1 5 900 (initState exStatic1 2) =
      .ok (⟨⟨some ⟨"data/st/a", 100, none, none⟩, catMusic⟩, some 0⟩,
        ⟨some 100, 1, 1, [⟨some ⟨"a", 100, none, none⟩, catMusic⟩], ⟨0, 0⟩, [], 2⟩) :=
  C2_sync_stability exStatic1 1 5 (initState exStatic1 2) 500 900
    ⟨⟨some ⟨"data/st/a", 100, none, none⟩, catMusic⟩, some 0⟩
    ⟨some 100, 1, 1, [⟨some ⟨"a", 100, none, none⟩, catMusic⟩], ⟨0, 0⟩, [], 2⟩
    100000 (by norm_num) (by norm_num) (by with_unfolding_all rfl)
    (by with_unfolding_all rfl) (by norm_num)

/-- Claim C7, counterexample to the claim as stated: on a dynamic station
whose `mono_solo` file group is absent (epoch/seed 1, one playlist track),
the second `nextSegment()` call reaches the transition draw (current
category MUSIC, random below 50 %, even draw selects DJ solo) and throws a
`TypeError` (`transitions.length` on `undefined`) instead of falling back to
the playlist track; and with `mono_solo` present but empty, the draw selects
an entry-less segment tagged DJ_SOLO (category 5, not the fallback MUSIC),
whose path resolution in `_newPlayableSegment` then throws
(`object.path.split` on `undefined`) — so the call throws in both cases. -/
theorem C7_transition_counterexample :
    runN exDynNoSolo 2 2 (initState exDynNoSolo 2) = .thrown ∧
    ((runN exDynEmptySolo 2 1 (initState exDynEmptySolo 2)).bindR fun s1 =>
      (implNextA exDynEmptySolo (fun st => stepPlain exDynEmptySolo 1 st) s1).bindR fun r =>
        .ok r.1) = .ok ⟨none, catDjsolo⟩ ∧
    ((runN exDynEmptySolo 2 1 (initState exDynEmptySolo 2)).bindR fun s1 =>
      nextSegmentF exDynEmptySolo 2 s1) = .thrown ∧
    catDjsolo ≠ catMusic := by
  refine ⟨by with_unfolding_all rfl, by with_unfolding_all rfl,
    by with_unfolding_all rfl, by decide⟩

/-- An entry-less segment cannot come from indexing the empty list. -/
theorem jsIdx_nil (o : Option Nat) : jsIdx [] o = none := by
  cases o with
  | none => rfl
  | some i => simp [jsIdx]

/-- The dynamic transition draw on an even random number with an empty
`mono_solo` list: selection succeeds but yields an entry-less DJ_SOLO
segment (the pool over size 0 returns null and `[][null]` is `undefined`). -/
theorem dynRandomTransition_empty (m : StationMetaM) (rand : Nat) (s : StationState)
    (heven : rand % 2 = 0) (hempty : m.monoSolo = some []) :
    dynRandomTransition m rand s =
      .ok (⟨none, catDjsolo⟩,
        { s with pools := (mgrNextUnique s.pools (getCategoryId catDjsolo) 0 rand 8).2 }) := by
  unfold dynRandomTransition
  rw [if_pos heven]
  simp only [hempty, setSegmentCategory, jsIdx_nil, List.length_nil,
    if_neg (show ¬(catDjsolo = catAdverts) by decide)]

/-- Claim C7 (amended: the guarded draws — every talkshow transition and the
dynamic ident draw — fall back to the playlist track tagged MUSIC when their
list is absent or empty, but the dynamic transition draw has no guard: an
absent `mono_solo` list makes the selection itself throw, and an empty
transition list selects an entry-less segment whose path resolution makes
the surrounding `nextSegment()` call throw). -/
theorem C7_fallback_amended (m : StationMetaM)
    (stepF : StationState → JsRes (SegmentInfo × StationState))
    (s : StationState) (cur : Option SegmentInfo) :
    (m.stype = .talkshow →
      peekAux m stepF 0 s = .ok cur →
      ((cur.map (·.category) = some catAdverts ∨ cur.map (·.category) = some catNews) →
        (m.idList = none ∨ m.idList = some []) →
        implNextA m stepF s =
          .ok (setSegmentCategory (jsIdx m.track (jsModIdx s.trackIndex m.track.length))
            catMusic, s)) ∧
      (cur.map (·.category) = some catMusic → m.advertsCat = [] →
        implNextA m stepF s =
          .ok (setSegmentCategory (jsIdx m.track (jsModIdx s.trackIndex m.track.length))
            catMusic, s))) ∧
    (m.stype = .dynamic →
      peekAux m stepF 0 (prngDraw s).2 = .ok cur →
      ((cur.map (·.category) = some catAdverts →
        (m.idList = none ∨ m.idList = some []) →
        implNextA m stepF s = .ok (dynRandomTrack m (prngDraw s).1 (prngDraw s).2) ∧
        (dynRandomTrack m (prngDraw s).1 (prngDraw s).2).1.category = catMusic) ∧
      (cur.map (·.category) = some catMusic →
        SeededPRNG.toFloat (prngDraw s).1 * 100 < 50 →
        (prngDraw s).1 % 2 = 0 → m.monoSolo = none →
        implNextA m stepF s = .thrown) ∧
      (∀ fuel, peekAux m (fun st => stepPlain m fuel st) 0 (prngDraw s).2 = .ok cur →
        cur.map (·.category) = some catMusic →
        SeededPRNG.toFloat (prngDraw s).1 * 100 < 50 →
        (prngDraw s).1 % 2 = 0 → m.monoSolo = some [] →
        nextSegmentF m (fuel + 1) s = .thrown))) := by
  constructor
  · intro hty hpk
    constructor
    · intro hcur hid
      have htrans : talkTransition m s (cur.map (·.category)) = none := by
        unfold talkTransition
        rw [if_pos hcur]
        cases hid with
        | inl h0 => rw [h0]; rfl
        | inr h0 => rw [h0]; rfl
      have hcond : cur.map (·.category) = some catMusic ∨
          cur.map (·.category) = some catNews ∨ cur.map (·.category) = some catAdverts := by
        cases hcur with
        | inl h0 => exact Or.inr (Or.inr h0)
        | inr h0 => exact Or.inr (Or.inl h0)
      simp only [implNextA, hty, hpk, JsRes.bindR]
      rw [if_pos hcond, htrans]
    · intro hcur hadv
      have htrans : talkTransition m s (cur.map (·.category)) = none := by
        unfold talkTransition
        rw [if_neg (by rw [hcur]; decide)]
        unfold talkDrawFrom
        rw [hadv]
        rfl
      simp only [implNextA, hty, hpk, JsRes.bindR]
      rw [if_pos (Or.inl hcur), htrans]
  · intro hty hpk
    refine ⟨?_, ?_, ?_⟩
    · intro hcur hid
      have hidnone : dynRandomId m (prngDraw s).1 (prngDraw s).2 = none := by
        unfold dynRandomId
        cases hid with
        | inl h0 => rw [h0]
        | inr h0 => rw [h0]; rfl
      constructor
      · simp only [implNextA, hty, hpk, JsRes.bindR]
        rw [if_pos hcur, hidnone]
      · rfl
    · intro hcur hpct heven hsolo
      have hthrown : dynRandomTransition m (prngDraw s).1 (prngDraw s).2 = .thrown := by
        simp only [dynRandomTransition, if_pos heven,
          if_neg (show ¬(catDjsolo = catAdverts) by decide), hsolo]
      simp only [implNextA, hty, hpk, JsRes.bindR]
      rw [if_neg (by rw [hcur]; decide), if_pos (And.intro hcur hpct), hthrown]
    · intro fuel hpk2 hcur hpct heven hempty
      have himpl : implNextA m (fun st => stepPlain m fuel st) s =
          .ok (⟨none, catDjsolo⟩,
            { (prngDraw s).2 with pools :=
                (mgrNextUnique (prngDraw s).2.pools (getCategoryId catDjsolo) 0
                  (prngDraw s).1 8).2 }) := by
        simp only [implNextA, hty, hpk2, JsRes.bindR]
        rw [if_neg (by rw [hcur]; decide), if_pos (And.intro hcur hpct),
          dynRandomTransition_empty m (prngDraw s).1 (prngDraw s).2 heven hempty]
      simp only [nextSegmentF, himpl, JsRes.bindR]
      rfl

/-- Witness for C7's amended fallback at a concrete talkshow state whose
current segment is an advert and whose `id` list is absent. -/
theorem C7_fallback_amended_witness :
    implNextA exTalkNoId (fun st => stepPlain exTalkNoId 1 st) exTalkAdvertState =
      .ok (setSegmentCategory (jsIdx exTalkNoId.track
        (jsModIdx exTalkAdvertState.trackIndex exTalkNoId.track.length)) catMusic,
        exTalkAdvertState) :=
  (((C7_fallback_amended exTalkNoId (fun st => stepPlain exTalkNoId 1 st) exTalkAdvertState
      (some ⟨some exAdvert, catAdverts⟩)).1 rfl (by with_unfolding_all rfl)).1
    (Or.inl rfl) (Or.inl rfl))

/-- Witness for C10 at concrete sizes and draw sequences. -/
theorem C10_drawPool_invariant_witness :
    (((runPool (IndexDrawPool.init 3 8) [4, 4, 1]).2.draw ++
        (runPool (IndexDrawPool.init 3 8) [4, 4, 1]).2.discard).Perm (List.range 3) ∧
      (runPool (IndexDrawPool.init 3 8) [4, 4, 1]).2.draw.Disjoint
        (runPool (IndexDrawPool.init 3 8) [4, 4, 1]).2.discard ∧
      (runPool (IndexDrawPool.init 3 8) [4, 4, 1]).2.discard.length ≤ 8) ∧
    ((runPool (mgrNewPool 2 8) [0, 1, 2]).2.draw ≠ [] ∧
      ∃ v q', (runPool (mgrNewPool 2 8) [0, 1, 2]).2.nextDraw 7 = (some v, q')) :=
  C10_drawPool_invariant 3 8 [4, 4, 1] 2 (by norm_num) [0, 1, 2] 7

end GTAVRadio

